import Mathlib

/-!
# Verification of the multi-scale feature-extraction core

Shallow embedding of the window partitioning, attention blocks, model
construction and feature-pyramid logic of `timm/models/hieradet_sam2.py`
and `timm/models/davit.py`, together with proofs settling the frozen
claims about the natural-language specification.

Tensors are modelled as shape-tagged index functions over `ℤ` (exact
arithmetic standing in for the float substrate, which the spec itself
treats as an external collaborator).  Transcendental scalars (softmax,
`head_dim ** -0.5`, LayerNorm) are abstracted as function parameters:
every claim below is about data flow, shapes and index arithmetic, not
about float rounding.
-/

/-- A 4-D tensor in `(B, H, W, C)` layout: shape fields plus a total
index function.  Only indices below the shape bounds are meaningful;
this mirrors a PyTorch tensor viewed through `Tensor.__getitem__`. -/
structure Ten4 where
  B : Nat
  H : Nat
  W : Nat
  C : Nat
  data : Nat → Nat → Nat → Nat → ℤ

/-- Pointwise addition of two same-shape tensors (broadcast-free `+`).
Shape is taken from the left operand, as PyTorch does for equal shapes. -/
def tAdd (x y : Ten4) : Ten4 :=
  ⟨x.B, x.H, x.W, x.C, fun b i j c => x.data b i j c + y.data b i j c⟩

/-- Model of `nn.Linear` applied along the channel (last) axis of a `(B,H,W,C)`
tensor: `out[b,i,j,m] = Σ_c w[m,c] * x[b,i,j,c] + bias[m]`, with
`outC` output features contracting over the `x.C` input features. -/
def linearT (w : Nat → Nat → ℤ) (bias : Nat → ℤ) (outC : Nat) (x : Ten4) : Ten4 :=
  ⟨x.B, x.H, x.W, outC, fun b i j m =>
    (∑ c ∈ Finset.range x.C, w m c * x.data b i j c) + bias m⟩

/-! ## `window_partition` / `window_unpartition` (hieradet_sam2.py:38-81)

`window_partition` pads H, W up to the next multiple of `window_size`
with zeros on the bottom/right (`F.pad(x, (0, 0, 0, pad_w, 0, pad_h))`),
views the result as `(B, Hp//ws, ws, Wp//ws, ws, C)`, permutes to bring
the two window axes together and flattens to
`(B*num_windows, ws, ws, C)`.  `window_unpartition` inverts the view
chain and crops back to `(B, H, W, C)`. -/

/-- Embedding of `window_partition(x, window_size)` from hieradet_sam2.py:38.
Returns the window tensor and the padded `(Hp, Wp)`. -/
def windowPartition (x : Ten4) (ws : Nat) : Ten4 × (Nat × Nat) :=
  let padH := (ws - x.H % ws) % ws
  let padW := (ws - x.W % ws) % ws
  let Hp := x.H + padH
  let Wp := x.W + padW
  -- F.pad(x, (0, 0, 0, pad_w, 0, pad_h)): zero-fill bottom/right only
  let px : Nat → Nat → Nat → Nat → ℤ := fun b i j c =>
    if i < x.H ∧ j < x.W then x.data b i j c else 0
  let nh := Hp / ws
  let nw := Wp / ws
  -- view(B, nh, ws, nw, ws, C).permute(0,1,3,2,4,5).view(-1, ws, ws, C):
  -- flat window index n decodes as (b, hi, wj) = (n/(nh*nw), (n/nw)%nh, n%nw)
  (⟨x.B * nh * nw, ws, ws, x.C, fun n p q c =>
      px (n / (nh * nw)) ((n / nw) % nh * ws + p) (n % nw * ws + q) c⟩,
   (Hp, Wp))

/-- Embedding of `window_unpartition(windows, window_size, (Hp, Wp), (H, W))` from
hieradet_sam2.py:62.  `B` is recovered as
`windows.shape[0] // (Hp * Wp // window_size // window_size)`; the
window view chain is inverted and the result cropped to `(H, W)`. -/
def windowUnpartition (w : Ten4) (ws : Nat) (padHW hw : Nat × Nat) : Ten4 :=
  let Hp := padHW.1
  let Wp := padHW.2
  let nh := Hp / ws
  let nw := Wp / ws
  let B := w.B / (Hp * Wp / ws / ws)
  -- view(B, nh, nw, ws, ws, -1).permute(0,1,3,2,4,5).view(B, Hp, Wp, -1)[:, :H, :W, :]
  ⟨B, hw.1, hw.2, w.C, fun b i j c =>
    w.data (b * (nh * nw) + i / ws * nw + j / ws) (i % ws) (j % ws) c⟩

/-! ## DaViT `ChannelAttention` (davit.py:132-155)

Tokens live in `(B, N, C)` layout, modelled as index functions
`Nat → Nat → Nat → ℤ`.  The softmax (applied along the last axis by
`Tensor.softmax(dim=-1)`) and the float scalar `head_dim ** -0.5` are
abstracted as the parameters `smax` and `scale`; the claim is about the
exact matrix-multiplication structure around them. -/

/-- Parameters of a `ChannelAttention` module (davit.py:134-141). -/
structure ChanAttn where
  numHeads : Nat
  scale : ℤ
  wQkv : Nat → Nat → ℤ
  bQkv : Nat → ℤ
  wProj : Nat → Nat → ℤ
  bProj : Nat → ℤ
  smax : (Nat → ℤ) → (Nat → ℤ)

/-- The projection `self.qkv(x)`: a Linear from `C` to `3*C` features (davit.py:146). -/
def caQkv3 (A : ChanAttn) (C : Nat) (x : Nat → Nat → Nat → ℤ) :
    Nat → Nat → Nat → ℤ := fun b n m =>
  (∑ c ∈ Finset.range C, A.wQkv m c * x b n c) + A.bQkv m

/-- The view chain `.reshape(B, N, 3, num_heads, C // num_heads).permute(2, 0, 3, 1, 4)`
(davit.py:146): component `s ∈ {0,1,2}` selects q/k/v, laid out as
`(B, heads, N, head_dim)`. -/
def caQKV (A : ChanAttn) (C : Nat) (x : Nat → Nat → Nat → ℤ) (s : Nat) :
    Nat → Nat → Nat → Nat → ℤ := fun b h n d =>
  caQkv3 A C x b n (s * (A.numHeads * (C / A.numHeads)) + h * (C / A.numHeads) + d)

/-- Lines `k = k * self.scale; attention = k.transpose(-1, -2) @ v`
(davit.py:149-150): a `head_dim × head_dim` matrix, the token axis `n`
being contracted. -/
def caAttention (A : ChanAttn) (C N : Nat) (x : Nat → Nat → Nat → ℤ) :
    Nat → Nat → Nat → Nat → ℤ := fun b h d e =>
  ∑ n ∈ Finset.range N, (A.scale * caQKV A C x 1 b h n d) * caQKV A C x 2 b h n e

/-- Line `attention = attention.softmax(dim=-1)` (davit.py:151). -/
def caAttnS (A : ChanAttn) (C N : Nat) (x : Nat → Nat → Nat → ℤ) :
    Nat → Nat → Nat → Nat → ℤ := fun b h d e =>
  A.smax (caAttention A C N x b h d) e

/-- Line `x = (attention @ q.transpose(-1, -2))` (davit.py:152), shape
`(B, heads, head_dim, N)`. -/
def caX1 (A : ChanAttn) (C N : Nat) (x : Nat → Nat → Nat → ℤ) :
    Nat → Nat → Nat → Nat → ℤ := fun b h d n =>
  ∑ e ∈ Finset.range (C / A.numHeads),
    caAttnS A C N x b h d e * caQKV A C x 0 b h n e

/-- Embedding of `ChannelAttention.forward` (davit.py:143-155): the two transposes
`(… ).transpose(-1, -2)` and `.transpose(1, 2)` and the final
`.reshape(B, N, C)` compose to `x4[b, n, c] = x1[b, c // hd, c % hd, n]`,
followed by `self.proj`. -/
def chanAttnForward (A : ChanAttn) (C N : Nat) (x : Nat → Nat → Nat → ℤ) :
    Nat → Nat → Nat → ℤ := fun b n c =>
  (∑ c2 ∈ Finset.range C,
      A.wProj c c2 *
        caX1 A C N x b (c2 / (C / A.numHeads)) (c2 % (C / A.numHeads)) n)
    + A.bProj c

/-- Spec-side formulation (§4.4 of the spec): project to Q, K, V of
shape `(heads, tokens, head_dim)` — the Q rows of the joint projection
are `0..C-1`, the K rows `C..2C-1`, the V rows `2C..3C-1` —  scale K,
form `attn = softmax(Kᵀ @ V)` (a `head_dim × head_dim` matrix whose
softmax normalises along the final axis, the one contracted with `Qᵀ`),
output `(attn @ Qᵀ)ᵀ` per head, concatenate heads, project out. -/
def chanAttnSpec (A : ChanAttn) (C N : Nat) (x : Nat → Nat → Nat → ℤ) :
    Nat → Nat → Nat → ℤ :=
  let hd := C / A.numHeads
  let projRows : Nat → Nat → Nat → Nat → Nat → ℤ := fun off b h n d =>
    (∑ c ∈ Finset.range C, A.wQkv (off + (h * hd + d)) c * x b n c)
      + A.bQkv (off + (h * hd + d))
  let Q := projRows 0
  let K := projRows C
  let V := projRows (2 * C)
  let attn : Nat → Nat → Nat → Nat → ℤ := fun b h d e =>
    A.smax (fun e2 =>
      ∑ n ∈ Finset.range N, (A.scale * K b h n d) * V b h n e2) e
  let headOut : Nat → Nat → Nat → Nat → ℤ := fun b h n d =>
    ∑ e ∈ Finset.range hd, attn b h d e * Q b h n e
  fun b n c =>
    (∑ c2 ∈ Finset.range C,
        A.wProj c c2 * headOut b (c2 / hd) n (c2 % hd)) + A.bProj c

/-! ## `do_pool`, `MultiScaleAttention`, `MultiScaleBlock`
(hieradet_sam2.py:20-213) -/

/-- Model of `nn.MaxPool2d(kernel_size=k, stride=k, ceil_mode=False)` on the two
spatial axes: the output extent is `floor((H - k) / k) + 1` and each
element is the maximum over its `k.1 × k.2` window. -/
def maxPool2d (k : Nat × Nat) (x : Ten4) : Ten4 :=
  ⟨x.B, (x.H - k.1) / k.1 + 1, (x.W - k.2) / k.2 + 1, x.C, fun b i j c =>
    ((List.range (k.1 * k.2)).map fun m =>
        x.data b (i * k.1 + m / k.2) (j * k.2 + m % k.2) c).foldl max
      (x.data b (i * k.1) (j * k.2) c)⟩

/-- Embedding of `do_pool(x, pool)` (hieradet_sam2.py:20-35): `pool is None` returns
`x`; otherwise permute `(B,H,W,C) → (B,C,H,W)`, apply the max-pool,
permute back (on index functions the two permutes are pure layout
bookkeeping, so the pooling acts on the H, W axes directly).  The
`norm` argument is `None` at every call site and is omitted. -/
def doPool (pool : Option (Nat × Nat)) (x : Ten4) : Ten4 :=
  match pool with
  | none => x
  | some k => maxPool2d k x

/-- Python `%` raises `ZeroDivisionError` on a zero modulus; modelled
as `Option`. -/
def pyMod (a b : Nat) : Option Nat := if b = 0 then none else some (a % b)

/-- Parameters of a `MultiScaleAttention` module
(hieradet_sam2.py:84-103).  `F.scaled_dot_product_attention` (softmax
attention over floats, with its internal `1/sqrt(head_dim)` scaling) is
abstracted as the parameter `sdpa` mapping the three
`(B, num_heads, tokens, head_dim)` operands to the output. -/
structure MSAttn where
  dim : Nat
  dim_out : Nat
  numHeads : Nat
  qPool : Option (Nat × Nat)
  wQkv : Nat → Nat → ℤ
  bQkv : Nat → ℤ
  wProj : Nat → Nat → ℤ
  bProj : Nat → ℤ
  sdpa : (Nat → Nat → Nat → Nat → ℤ) → (Nat → Nat → Nat → Nat → ℤ) →
         (Nat → Nat → Nat → Nat → ℤ) → (Nat → Nat → Nat → Nat → ℤ)

/-- Lines `qkv = self.qkv(x).reshape(B, H * W, 3, nheads, -1)` followed by
`torch.unbind(qkv, 2)` (hieradet_sam2.py:109-112): component
`s ∈ {0,1,2}` selects q/k/v in `(B, tokens, heads, head_dim)` layout. -/
def msaQKV (A : MSAttn) (x : Ten4) (s : Nat) : Nat → Nat → Nat → Nat → ℤ :=
  fun b n h d =>
    (linearT A.wQkv A.bQkv (A.dim_out * 3) x).data b (n / x.W) (n % x.W)
      (s * (A.numHeads * (A.dim_out / A.numHeads)) + h * (A.dim_out / A.numHeads) + d)

/-- The view `q.reshape(B, H, W, -1)` (hieradet_sam2.py:116) as a spatial tensor
ready for `do_pool`. -/
def msaQ4 (A : MSAttn) (x : Ten4) : Ten4 :=
  ⟨x.B, x.H, x.W, A.numHeads * (A.dim_out / A.numHeads), fun b i j m =>
    msaQKV A x 0 b (i * x.W + j) (m / (A.dim_out / A.numHeads))
      (m % (A.dim_out / A.numHeads))⟩

/-- The query operand handed to SDPA together with the downsampled
`(H, W)` (hieradet_sam2.py:114-118): pooled and re-flattened when
`self.q_pool` is set, the raw q otherwise. -/
def msaAttnIn (A : MSAttn) (x : Ten4) : (Nat → Nat → Nat → Nat → ℤ) × (Nat × Nat) :=
  match A.qPool with
  | none => (msaQKV A x 0, (x.H, x.W))
  | some k =>
      let pq := maxPool2d k (msaQ4 A x)
      (fun b n h d => pq.data b (n / pq.W) (n % pq.W)
          (h * (A.dim_out / A.numHeads) + d),
       (pq.H, pq.W))

/-- The call `F.scaled_dot_product_attention(q.transpose(1, 2), k.transpose(1, 2),
v.transpose(1, 2))` (hieradet_sam2.py:121-125): only the query is
(possibly) pooled; the key and value operands are the unpooled
projections of all `H * W` input tokens. -/
def msaSdpaOut (A : MSAttn) (x : Ten4) : Nat → Nat → Nat → Nat → ℤ :=
  A.sdpa (fun b h n d => (msaAttnIn A x).1 b n h d)
         (fun b h n d => msaQKV A x 1 b n h d)
         (fun b h n d => msaQKV A x 2 b n h d)

/-- Embedding of `MultiScaleAttention.forward` (hieradet_sam2.py:105-130):
`x = x.transpose(1, 2).reshape(B, H, W, -1)` with the (possibly
downsampled) `H, W`, then `self.proj`. -/
def msAttnForward (A : MSAttn) (x : Ten4) : Ten4 :=
  linearT A.wProj A.bProj A.dim_out
    ⟨x.B, (msaAttnIn A x).2.1, (msaAttnIn A x).2.2,
     A.numHeads * (A.dim_out / A.numHeads), fun b i j m =>
      msaSdpaOut A x b (m / (A.dim_out / A.numHeads))
        (i * (msaAttnIn A x).2.2 + j) (m % (A.dim_out / A.numHeads))⟩

/-- Spec-side per-head query projection at a spatial position: head `h`
of the Q block (rows `0 .. dim_out-1`) of the joint qkv projection. -/
def specQ (A : MSAttn) (x : Ten4) : Nat → Nat → Nat → Nat → Nat → ℤ :=
  fun b h i j d =>
    (∑ c ∈ Finset.range A.dim,
      A.wQkv (h * (A.dim_out / A.numHeads) + d) c * x.data b i j c)
    + A.bQkv (h * (A.dim_out / A.numHeads) + d)

/-- Spec-side per-head key projection of token `n` of the full-resolution
input (rows `dim_out .. 2*dim_out-1` of the joint projection): the token
index ranges over all `H * W` input positions — keys are never pooled. -/
def specK (A : MSAttn) (x : Ten4) : Nat → Nat → Nat → Nat → ℤ :=
  fun b h n d =>
    (∑ c ∈ Finset.range A.dim,
      A.wQkv (A.dim_out + (h * (A.dim_out / A.numHeads) + d)) c
        * x.data b (n / x.W) (n % x.W) c)
    + A.bQkv (A.dim_out + (h * (A.dim_out / A.numHeads) + d))

/-- Spec-side per-head value projection of token `n` of the
full-resolution input (rows `2*dim_out .. 3*dim_out-1`): values are
never pooled either. -/
def specV (A : MSAttn) (x : Ten4) : Nat → Nat → Nat → Nat → ℤ :=
  fun b h n d =>
    (∑ c ∈ Finset.range A.dim,
      A.wQkv (2 * A.dim_out + (h * (A.dim_out / A.numHeads) + d)) c
        * x.data b (n / x.W) (n % x.W) c)
    + A.bQkv (2 * A.dim_out + (h * (A.dim_out / A.numHeads) + d))

/-- Spec-side pooled queries (§4.3 of the spec): the strided max-pool
applied to the per-head query map, token `n` of the downsampled grid
taking the maximum of `specQ` over its `k.1 × k.2` window. -/
def specPooledQ (A : MSAttn) (k : Nat × Nat) (x : Ten4) :
    Nat → Nat → Nat → Nat → ℤ := fun b h n d =>
  let W2 := (x.W - k.2) / k.2 + 1
  ((List.range (k.1 * k.2)).map fun m =>
      specQ A x b h (n / W2 * k.1 + m / k.2) (n % W2 * k.2 + m % k.2) d).foldl max
    (specQ A x b h (n / W2 * k.1) (n % W2 * k.2) d)

/-- Parameters of a `MultiScaleBlock` (hieradet_sam2.py:133-178).
`norm1`, `norm2` (LayerNorm over floats) and `mlp` are abstracted as
tensor functions; `DropPath` is the identity at inference and at
`drop_path = 0`.  `projW`/`projB` model `self.proj = nn.Linear(dim,
dim_out)`, which only exists when `dim != dim_out`. -/
structure MSBlock where
  dim : Nat
  dim_out : Nat
  numHeads : Nat
  window_size : Nat
  qStride : Option (Nat × Nat)
  norm1 : Ten4 → Ten4
  norm2 : Ten4 → Ten4
  attnWQkv : Nat → Nat → ℤ
  attnBQkv : Nat → ℤ
  attnWProj : Nat → Nat → ℤ
  attnBProj : Nat → ℤ
  sdpa : (Nat → Nat → Nat → Nat → ℤ) → (Nat → Nat → Nat → Nat → ℤ) →
         (Nat → Nat → Nat → Nat → ℤ) → (Nat → Nat → Nat → Nat → ℤ)
  projW : Nat → Nat → ℤ
  projB : Nat → ℤ
  mlp : Ten4 → Ten4

/-- The `MultiScaleAttention` inside a block (hieradet_sam2.py:162-167):
`q_pool=self.pool`, i.e. the very same pooling used for the shortcut. -/
def msBlockAttn (blk : MSBlock) : MSAttn :=
  ⟨blk.dim, blk.dim_out, blk.numHeads, blk.qStride,
   blk.attnWQkv, blk.attnBQkv, blk.attnWProj, blk.attnBProj, blk.sdpa⟩

/-- Embedding of `MultiScaleBlock.forward` (hieradet_sam2.py:180-213).  Returns
`none` exactly when the `% window_size` computations on lines 202-203
divide by zero (`window_size = self.window_size // self.q_stride[0]`). -/
def msBlockForward (blk : MSBlock) (x : Ten4) : Option Ten4 :=
  -- shortcut = x; x = self.norm1(x); if dim != dim_out: shortcut = do_pool(proj(x), pool)
  let xn := blk.norm1 x
  let shortcut := if blk.dim ≠ blk.dim_out
    then doPool blk.qStride (linearT blk.projW blk.projB blk.dim_out xn)
    else x
  -- pad_hw = 0, 0; if window_size > 0: x, pad_hw = window_partition(x, window_size)
  let part := if 0 < blk.window_size then windowPartition xn blk.window_size
              else (xn, (0, 0))
  -- x = self.attn(x)
  let xa := msAttnForward (msBlockAttn blk) part.1
  -- if self.q_stride: recompute window_size, feat_size, pad_hw
  ((match blk.qStride with
   | none => some (blk.window_size, part.2, (xn.H, xn.W))
   | some qs =>
      let ws2 := blk.window_size / qs.1
      (pyMod shortcut.H ws2).bind fun r1 =>
      (pyMod (ws2 - r1) ws2).bind fun p1 =>
      (pyMod shortcut.W ws2).bind fun r2 =>
      (pyMod (ws2 - r2) ws2).map fun p2 =>
        (ws2, (shortcut.H + p1, shortcut.W + p2), (shortcut.H, shortcut.W))
   : Option (Nat × (Nat × Nat) × (Nat × Nat)))
  ).map fun st =>
    -- if self.window_size > 0: x = window_unpartition(x, window_size, pad_hw, feat_size)
    let xu := if 0 < blk.window_size
      then windowUnpartition xa st.1 st.2.1 st.2.2 else xa
    -- x = shortcut + drop_path(x); x = x + drop_path(mlp(norm2(x)))
    let y := tAdd shortcut xu
    tAdd y (blk.mlp (blk.norm2 y))

/-- The block forward as claim C2 words it: the projected shortcut taken
from the PRE-norm block input (everything else as in the source). -/
def msBlockForwardClaim (blk : MSBlock) (x : Ten4) : Option Ten4 :=
  let xn := blk.norm1 x
  let shortcut := if blk.dim ≠ blk.dim_out
    then doPool blk.qStride (linearT blk.projW blk.projB blk.dim_out x)
    else x
  let part := if 0 < blk.window_size then windowPartition xn blk.window_size
              else (xn, (0, 0))
  let xa := msAttnForward (msBlockAttn blk) part.1
  ((match blk.qStride with
   | none => some (blk.window_size, part.2, (xn.H, xn.W))
   | some qs =>
      let ws2 := blk.window_size / qs.1
      (pyMod shortcut.H ws2).bind fun r1 =>
      (pyMod (ws2 - r1) ws2).bind fun p1 =>
      (pyMod shortcut.W ws2).bind fun r2 =>
      (pyMod (ws2 - r2) ws2).map fun p2 =>
        (ws2, (shortcut.H + p1, shortcut.W + p2), (shortcut.H, shortcut.W))
   : Option (Nat × (Nat × Nat) × (Nat × Nat)))
  ).map fun st =>
    let xu := if 0 < blk.window_size
      then windowUnpartition xa st.1 st.2.1 st.2.2 else xa
    let y := tAdd shortcut xu
    tAdd y (blk.mlp (blk.norm2 y))

/-- The `ShortcutCompute` stage as the code actually performs it: identity unless
`dim != dim_out`, in which case a linear projection of the POST-norm
input `norm1(x)`, downsampled with the same pooling the attention branch
applies to its queries. -/
def shortcutCompute (blk : MSBlock) (x : Ten4) : Ten4 :=
  if blk.dim ≠ blk.dim_out
  then doPool blk.qStride (linearT blk.projW blk.projB blk.dim_out (blk.norm1 x))
  else x

/-- The §4.6 block state machine with the shortcut value as an explicit
parameter: `PreNorm1 → Windowing → Attention → Unwindow → ResidualAdd1
→ PreNorm2 → MLP → ResidualAdd2`. -/
def msBlockPipeline (blk : MSBlock) (shortcut : Ten4) (x : Ten4) : Option Ten4 :=
  let xn := blk.norm1 x
  let part := if 0 < blk.window_size then windowPartition xn blk.window_size
              else (xn, (0, 0))
  let xa := msAttnForward (msBlockAttn blk) part.1
  ((match blk.qStride with
   | none => some (blk.window_size, part.2, (xn.H, xn.W))
   | some qs =>
      let ws2 := blk.window_size / qs.1
      (pyMod shortcut.H ws2).bind fun r1 =>
      (pyMod (ws2 - r1) ws2).bind fun p1 =>
      (pyMod shortcut.W ws2).bind fun r2 =>
      (pyMod (ws2 - r2) ws2).map fun p2 =>
        (ws2, (shortcut.H + p1, shortcut.W + p2), (shortcut.H, shortcut.W))
   : Option (Nat × (Nat × Nat) × (Nat × Nat)))
  ).map fun st =>
    let xu := if 0 < blk.window_size
      then windowUnpartition xa st.1 st.2.1 st.2.2 else xa
    let y := tAdd shortcut xu
    tAdd y (blk.mlp (blk.norm2 y))

/-! ## `HieraDet.__init__` block construction (hieradet_sam2.py:254-371)

The constructor loop is embedded as a state recursion: `stateAt cfg i`
is the `(embed_dim, num_heads, cur_stage)` state at the start of loop
iteration `i`, and `blockAt cfg i` the block spec constructed there.
`dim_mul`/`head_mul` are Python floats (2.0 in every shipped config);
`int(embed_dim * dim_mul)` truncates toward zero, which on the
nonnegative values involved agrees with the floor used here. -/

/-- Configuration surface of `HieraDet` (constructor arguments that
shape the block list). -/
structure HieraCfg where
  embedDim : Nat
  numHeads : Nat
  qPool : Nat
  qStride : Nat × Nat
  stages : List Nat
  dimMul : ℚ
  headMul : ℚ
  windowSpec : List Nat
  globalAtt : Option (List Int)

/-- Prefix sum `sum(stages[:k])`. -/
def sumTake (l : List Nat) (k : Nat) : Nat := (l.take k).sum

/-- Embedding of `self.stage_ends = [sum(stages[:i]) - 1 for i in range(1, len(stages) + 1)]`
(hieradet_sam2.py:301), over ℤ as in Python. -/
def stageEnds (cfg : HieraCfg) : List Int :=
  (List.range cfg.stages.length).map fun i => (sumTake cfg.stages (i + 1) : Int) - 1

/-- Embedding of `self.q_pool_blocks = [x + 1 for x in self.stage_ends[:-1]][:q_pool]`
(hieradet_sam2.py:303). -/
def qPoolBlocks (cfg : HieraCfg) : List Int :=
  ((stageEnds cfg).dropLast.map (fun e => e + 1)).take cfg.qPool

/-- Python `int()` truncation of the nonnegative products
`embed_dim * dim_mul`, `num_heads * head_mul`. -/
def pyIntNat (q : ℚ) : Nat := (⌊q⌋).toNat

/-- Test `window_size = 0 if i in self.global_att_blocks else window_size`,
guarded by `if self.global_att_blocks is not None`
(hieradet_sam2.py:342-343). -/
def isGlobalAtt (cfg : HieraCfg) (i : Nat) : Bool :=
  match cfg.globalAtt with
  | some l => l.contains (i : Int)
  | none => false

/-- Loop-carried constructor state. -/
structure BState where
  embedDim : Nat
  numHeads : Nat
  curStage : Nat

/-- The arguments a `MultiScaleBlock` is constructed with
(hieradet_sam2.py:350-359). -/
structure BlockSpec where
  dim : Nat
  dim_out : Nat
  numHeads : Nat
  window_size : Nat
  qStride : Option (Nat × Nat)

/-- One iteration of the constructor loop body
(hieradet_sam2.py:335-359): the window size is read from
`window_spec[cur_stage]` BEFORE the stage shift is processed (the
"lagged" assignment), then `if i - 1 in self.stage_ends` updates
`dim_out`, `num_heads` (and, in `stepState`, `cur_stage`). -/
def mkBlock (cfg : HieraCfg) (i : Nat) (st : BState) : BlockSpec :=
  let ws0 := cfg.windowSpec.getD st.curStage 0
  let ws := if isGlobalAtt cfg i then 0 else ws0
  let shift := ((i : Int) - 1) ∈ stageEnds cfg
  { dim := st.embedDim
    dim_out := if shift then pyIntNat ((st.embedDim : ℚ) * cfg.dimMul) else st.embedDim
    numHeads := if shift then pyIntNat ((st.numHeads : ℚ) * cfg.headMul) else st.numHeads
    window_size := ws
    qStride := if (i : Int) ∈ qPoolBlocks cfg then some cfg.qStride else none }

/-- State update after iteration `i`: `embed_dim = dim_out`, the
(possibly multiplied) head count, and `cur_stage += 1` at a shift. -/
def stepState (cfg : HieraCfg) (i : Nat) (st : BState) : BState :=
  { embedDim := (mkBlock cfg i st).dim_out
    numHeads := (mkBlock cfg i st).numHeads
    curStage := st.curStage + (if ((i : Int) - 1) ∈ stageEnds cfg then 1 else 0) }

/-- Constructor state at the start of iteration `i`. -/
def stateAt (cfg : HieraCfg) : Nat → BState
  | 0 => ⟨cfg.embedDim, cfg.numHeads, 0⟩
  | i + 1 => stepState cfg i (stateAt cfg i)

/-- The spec of block `i` as constructed by `HieraDet.__init__`. -/
def blockAt (cfg : HieraCfg) (i : Nat) : BlockSpec := mkBlock cfg i (stateAt cfg i)

/-- The full block list (`depth = sum(stages)` blocks). -/
def hieraBlocks (cfg : HieraCfg) : List BlockSpec :=
  (List.range cfg.stages.sum).map (blockAt cfg)

/-- Arguments of the stock `HieraDet()` constructor call (also the
`sam2_hiera_base_plus` stage layout, hieradet_sam2.py:254-283,617-620). -/
def sam2DefaultCfg : HieraCfg :=
  ⟨96, 1, 3, (2, 2), [2, 3, 16, 3], 2, 2, [8, 4, 14, 7], some [12, 16, 20]⟩

/-- Config `sam2_hiera_tiny` (hieradet_sam2.py:599-602). -/
def sam2TinyCfg : HieraCfg :=
  ⟨96, 1, 3, (2, 2), [1, 2, 7, 2], 2, 2, [8, 4, 14, 7], some [5, 7, 9]⟩

/-- Config `sam2_hiera_small` (hieradet_sam2.py:605-608). -/
def sam2SmallCfg : HieraCfg :=
  ⟨96, 1, 3, (2, 2), [1, 2, 11, 2], 2, 2, [8, 4, 14, 7], some [7, 10, 13]⟩

/-- Config `sam2_hiera_base_plus` (hieradet_sam2.py:617-620). -/
def sam2BasePlusCfg : HieraCfg :=
  ⟨112, 2, 3, (2, 2), [2, 3, 16, 3], 2, 2, [8, 4, 14, 7], some [12, 16, 20]⟩

/-- Config `sam2_hiera_large` (hieradet_sam2.py:623-632). -/
def sam2LargeCfg : HieraCfg :=
  ⟨144, 2, 3, (2, 2), [2, 6, 36, 4], 2, 2, [8, 4, 16, 8], some [23, 33, 43]⟩

/-- The q-pool block indices as naturals (all stage ends are
nonnegative for nonempty stages). -/
def qPoolBlocksNat (cfg : HieraCfg) : List Nat := (qPoolBlocks cfg).map Int.toNat

/-! ## DaViT `PatchEmbed`, construction and `forward_network`
(davit.py:72-129, 348-504) -/

/-- Square convolution geometry: kernel, stride, padding. -/
structure ConvSpec where
  k : Nat
  s : Nat
  p : Nat
deriving DecidableEq

/-- The projection convolution chosen by `PatchEmbed.__init__`
(davit.py:87-104): patch 4 → 7×7 stride 4 pad 3; patch 2 → kernel 3
pad 1 when overlapped else kernel 2 pad 0; any other patch size leaves
`self.proj` unassigned. -/
def davitPatchProj (ps : Nat) (overlapped : Bool) : Option ConvSpec :=
  if ps = 4 then some ⟨7, 4, 3⟩
  else if ps = 2 then some (if overlapped then ⟨3, 2, 1⟩ else ⟨2, 2, 0⟩)
  else none

/-- Bottom/right padding up to the next multiple of `ps`, mirroring
`if W % ps != 0: x = F.pad(x, (0, ps - W % ps))` (davit.py:119-122). -/
def padUp (ps H : Nat) : Nat := if H % ps ≠ 0 then H + (ps - H % ps) else H

/-- Model of the `nn.Conv2d` output extent: `(H + 2p - k) / s + 1`. -/
def convOut (cs : ConvSpec) (H : Nat) : Nat := (H + 2 * cs.p - cs.k) / cs.s + 1

/-- The zero-padded input seen by the convolution (davit.py:119-122) on
an NCHW index function: original values at unshifted indices (padding
is bottom/right only — never top/left), zero in the pad region. -/
def padBR (H W : Nat) (x : Nat → Nat → Nat → Nat → ℤ) :
    Nat → Nat → Nat → Nat → ℤ :=
  fun b c i j => if i < H ∧ j < W then x b c i j else 0

/-- A constructed `PatchEmbed` module (davit.py:77-104).  Construction
never raises; an unsupported patch size merely leaves `proj = none`. -/
structure DavitPatchEmbedCfg where
  patchSize : Nat
  proj : Option ConvSpec
deriving DecidableEq

/-- Embedding of `PatchEmbed.__init__` (davit.py:77-104). -/
def davitPatchEmbedInit (ps : Nat) (ov : Bool) : DavitPatchEmbedCfg :=
  ⟨ps, davitPatchProj ps ov⟩

/-- Embedding of `PatchEmbed.forward` at the spatial-size level (davit.py:107-129):
pad to a stride multiple, convolve, report `newsize`.  A module built
with an unsupported patch size has no `self.proj` and raises
`AttributeError` here — at forward time, not at construction. -/
def davitPatchEmbedForwardSize (cfg : DavitPatchEmbedCfg) (H W : Nat) :
    Except String (Nat × Nat) :=
  match cfg.proj with
  | none => .error "AttributeError: proj"
  | some cs => .ok (convOut cs (padUp cfg.patchSize H), convOut cs (padUp cfg.patchSize W))

/-- A constructed `DaViT` model (the fields the claims need). -/
structure DavitCfg where
  depths : List Nat
  embedDims : List Nat
  numHeads : List Nat
  patchSize : Nat
  overlapped : Bool
  patchEmbeds : List DavitPatchEmbedCfg
deriving DecidableEq

/-- The flattened stage architecture
`list(itertools.chain(*[[index] * item for index, item in
enumerate(depths)]))` (davit.py:390-396). -/
def davitArchFlat (depths : List Nat) : List Nat :=
  (List.zipWith (fun i d => List.replicate d i)
    (List.range depths.length) depths).flatten

/-- The per-stage construction loop of `DaViT.__init__`
(davit.py:412-443), error paths only, scanned in loop order over
`stage_id = s, s+1, …`.  For each stage with at least one block,
`ChannelAttention.__init__`/`WindowAttention.__init__` compute
`head_dim = dim // num_heads` and `head_dim ** -0.5`
(davit.py:136-138, 240-241), raising `ZeroDivisionError` when the
stage's head count is zero or exceeds its channel width; then line 443
reads `self.embed_dims[stage_id]`, raising `IndexError` when `depths`
has more entries than `embed_dims` (reachable with trailing zero
depths, which do not appear in the flattened architecture the assert
inspects). -/
def davitStageScan (embedDims numHeads : List Nat) :
    List Nat → Nat → Except String Unit
  | [], _ => .ok ()
  | d :: rest, s =>
      if 0 < d ∧ (numHeads.getD s 0 = 0 ∨ embedDims.getD s 0 < numHeads.getD s 0)
      then .error "ZeroDivisionError: head_dim"
      else if embedDims.length ≤ s then .error "IndexError: self.embed_dims[stage_id]"
      else davitStageScan embedDims numHeads rest (s + 1)

/-- Embedding of `DaViT.__init__` (davit.py:367-447): the chained
assert `num_stages == len(num_heads) == sorted(flat)[-1] + 1`
(davit.py:396) first compares the two lengths, then — only if they
agree — indexes the sorted flattened architecture, raising `IndexError`
when it is empty; the stage loop can still raise `ZeroDivisionError` or
`IndexError` as per `davitStageScan`.  Patch embeds use `patch_size`
for stage 0 and 2 thereafter (davit.py:404-409) and never raise.
Construction either returns the full configuration or an error. -/
def davitInit (depths embedDims numHeads : List Nat) (patchSize : Nat)
    (ov : Bool) : Except String DavitCfg :=
  let flat := davitArchFlat depths
  if embedDims.length = numHeads.length then
    if flat.isEmpty then .error "IndexError: list index out of range"
    else if embedDims.length = flat.foldl max 0 + 1 then
      match davitStageScan embedDims numHeads depths 0 with
      | .error e => .error e
      | .ok _ =>
        .ok ⟨depths, embedDims, numHeads, patchSize, ov,
          (List.range embedDims.length).map fun i =>
            davitPatchEmbedInit (if i = 0 then patchSize else 2) ov⟩
    else .error "AssertionError"
  else .error "AssertionError"

/-- Fact that `ChannelBlock.forward` returns its `size` argument unchanged
(davit.py:181-190). -/
def channelBlockSize (size : Nat × Nat) : Nat × Nat := size

/-- Fact that `SpatialBlock.forward` pads, windows, attends, un-windows and crops
back, returning `size` unchanged (davit.py:307-344). -/
def spatialBlockSize (size : Nat × Nat) : Nat × Nat := size

/-- One dual block = the `('spatial', 'channel')` layer pair
(davit.py:379, 415-440). -/
def davitBlockSize (size : Nat × Nat) : Nat × Nat :=
  channelBlockSize (spatialBlockSize size)

/-- A stage's `depth` dual blocks, at the spatial-size level. -/
def stageBlocksSize : Nat → (Nat × Nat) → (Nat × Nat)
  | 0, size => size
  | d + 1, size => stageBlocksSize d (davitBlockSize size)

/-- The `forward_network` loop (davit.py:479-491) at the spatial-size
level: `features[-1]`/`sizes[-1]` mutation and the
`len(features) < num_stages` append, with `finished` the completed
entries and `cur` the live last entry. -/
def fnGo (numStages : Nat) :
    List (DavitPatchEmbedCfg × Nat) → List (Nat × Nat) → (Nat × Nat) →
    Option (List (Nat × Nat))
  | [], finished, cur => some (finished ++ [cur])
  | (pe, depth) :: rest, finished, cur =>
      match davitPatchEmbedForwardSize pe cur.1 cur.2 with
      | .error _ => none
      | .ok s1 =>
          let s2 := stageBlocksSize depth s1
          if finished.length + 1 < numStages
          then fnGo numStages rest (finished ++ [s2]) s2
          else fnGo numStages rest finished s2

/-- Embedding of `DaViT.forward_network` (davit.py:474-495): per-entry spatial
sizes of the returned features list. -/
def forwardNetworkSizes (cfg : DavitCfg) (hw : Nat × Nat) :
    Option (List (Nat × Nat)) :=
  fnGo cfg.embedDims.length (cfg.patchEmbeds.zip cfg.depths) [] hw

/-- Embedding of `forward_pyramid_features` (davit.py:497-504): entry `i` is
reshaped to `(B, embed_dims[i], H_i, W_i)`; the pyramid's
channel/size pairs. -/
def pyramidShapes (cfg : DavitCfg) (hw : Nat × Nat) :
    Option (List (Nat × (Nat × Nat))) :=
  (forwardNetworkSizes cfg hw).map fun sizes => cfg.embedDims.zip sizes

/-! ## Feature selection and early exit
(hieradet_sam2.py:442-491) -/

/-- A pyramid selection, §4.8 of the spec. -/
inductive FeatureSel where
  | all : FeatureSel
  | lastN : Nat → FeatureSel
  | explicitIdx : List Nat → FeatureSel

/-- Modelled from the spec: `feature_take_indices`
(timm/models/_features.py, not part of this source snapshot).  §4.8: a
selection over `num_features` outputs is an explicit index list, "last
N", or "all"; the traversal needs the selected indices and the maximum
requested index. -/
def featureTakeIndices (numFeatures : Nat) : FeatureSel → List Nat × Nat
  | .all => (List.range numFeatures, numFeatures - 1)
  | .lastN n => ((List.range numFeatures).drop (numFeatures - n), numFeatures - 1)
  | .explicitIdx l => (l, l.foldl max 0)

/-- The `stage_ends` list as block indices (nonnegative whenever every stage is
nonempty). -/
def stageEndsNat (cfg : HieraCfg) : List Nat := (stageEnds cfg).map Int.toNat

/-- Number of blocks executed by `HieraDet.forward_intermediates` with
`coarse=True, stop_early=True` (hieradet_sam2.py:442-491): the
selection maps through `stage_ends`, `max_index =
stage_ends[max_index]`, and the loop runs over
`self.blocks[:max_index + 1]` (slicing truncates at `depth`). -/
def blocksEvaluated (cfg : HieraCfg) (sel : FeatureSel) : Nat :=
  let ends := stageEndsNat cfg
  let maxI := (featureTakeIndices ends.length sel).2
  min (ends.getD maxI 0 + 1) cfg.stages.sum

/-! ## Concrete instances used by counterexamples and witnesses -/

/-- A tiny concrete `MultiScaleBlock`: `dim = 1 ≠ dim_out = 2`, no
windowing, no query pooling, with a non-identity `norm1` (as LayerNorm
is) and trivial attention/MLP parameters. -/
def cexBlock : MSBlock where
  dim := 1
  dim_out := 2
  numHeads := 1
  window_size := 0
  qStride := none
  norm1 := fun t => ⟨t.B, t.H, t.W, t.C, fun b i j c => 2 * t.data b i j c⟩
  norm2 := id
  attnWQkv := fun _ _ => 1
  attnBQkv := fun _ => 0
  attnWProj := fun _ _ => 1
  attnBProj := fun _ => 0
  sdpa := fun _ _ v => v
  projW := fun _ _ => 1
  projB := fun _ => 0
  mlp := fun t => ⟨t.B, t.H, t.W, t.C, fun _ _ _ _ => 0⟩

/-- The same block with `dim = dim_out` (identity shortcut case). -/
def cexBlockEq : MSBlock := { cexBlock with dim_out := 1 }

/-- A global-attention block (`window_size = 0`) given a query-pool
stride, the configuration claim C10 is about. -/
def cexBlockDiv : MSBlock := { cexBlock with qStride := some (2, 2) }

/-- A one-batch `1 × 1` single-channel input of ones. -/
def cexInput : Ten4 := ⟨1, 1, 1, 1, fun _ _ _ _ => 1⟩

/-- Attention module used by the C4 witness: two output channels,
one head, `(2, 2)` query pooling, unit weights, `sdpa` returning its
query operand. -/
def c4Attn : MSAttn where
  dim := 1
  dim_out := 2
  numHeads := 1
  qPool := some (2, 2)
  wQkv := fun _ _ => 1
  bQkv := fun _ => 0
  wProj := fun _ _ => 1
  bProj := fun _ => 0
  sdpa := fun q _ _ => q

/-- A `1 × 2 × 2 × 1` input of ones for the C4 witness. -/
def c4Input : Ten4 := ⟨1, 2, 2, 1, fun _ _ _ _ => 1⟩

/-! ## Claim C9: fail-fast construction -/

/-- The block-construction loop of `HieraDet.__init__`
(hieradet_sam2.py:335-362), error paths only: for every block,
`MultiScaleAttention.__init__` computes `head_dim = dim_out //
num_heads` and `self.scale = head_dim ** -0.5`
(hieradet_sam2.py:98-99), raising `ZeroDivisionError` when the block's
head count is zero or exceeds its output width (`head_dim == 0` makes
`0.0 ** -0.5` raise). -/
def hieraBlocksCheck (cfg : HieraCfg) : Except String Unit :=
  if (List.range cfg.stages.sum).all (fun i =>
      decide (0 < (blockAt cfg i).numHeads)
        && decide ((blockAt cfg i).numHeads ≤ (blockAt cfg i).dim_out))
  then .ok () else .error "ZeroDivisionError: head_dim"

/-- Embedding of `HieraDet.__init__`'s construction-time behaviour
(hieradet_sam2.py:292-371): `assert len(stages) == len(window_spec)` on
line 295, then `assert 0 <= q_pool <= len(self.stage_ends[:-1])` on
line 302 (`q_pool` is a natural here, so the lower bound is inherent;
the upper bound `len(stage_ends[:-1])` is `len(stages) - 1` truncated
at zero, as it is in Python for the empty slice); then line 329 reads
`self.window_spec[0]`, raising `IndexError` for an empty window spec;
then the block loop can raise per `hieraBlocksCheck`; and finally line
368 indexes `self.blocks[e]` at every stage end, raising `IndexError`
when the model has zero blocks.  The external `PatchEmbed`/head layers
(timm.layers, not in this snapshot) are taken as non-raising.
Construction either returns the full configuration or an error;
nothing partial escapes. -/
def hieraDetInit (embedDim numHeads qPool : Nat) (qStride : Nat × Nat)
    (stages : List Nat) (dimMul headMul : ℚ) (windowSpec : List Nat)
    (globalAtt : Option (List Int)) : Except String HieraCfg :=
  if stages.length = windowSpec.length then
    if qPool ≤ stages.length - 1 then
      if windowSpec.isEmpty then .error "IndexError: self.window_spec[0]"
      else
        match hieraBlocksCheck ⟨embedDim, numHeads, qPool, qStride, stages,
            dimMul, headMul, windowSpec, globalAtt⟩ with
        | .error e => .error e
        | .ok _ =>
          if stages.sum = 0 then .error "IndexError: self.blocks[stage_end]"
          else .ok ⟨embedDim, numHeads, qPool, qStride, stages, dimMul, headMul,
                    windowSpec, globalAtt⟩
    else .error "AssertionError: q_pool"
  else .error "AssertionError: len(stages) == len(window_spec)"

/-! ## Claim C6: pyramid monotonicity -/

/-- The `davit_tiny` model configuration (davit.py:601-605) as
constructed by `DaViT.__init__`. -/
def davitTinyShape : DavitCfg :=
  ⟨[1, 1, 3, 1], [96, 192, 384, 768], [3, 6, 12, 24], 4, false,
   [davitPatchEmbedInit 4 false, davitPatchEmbedInit 2 false,
    davitPatchEmbedInit 2 false, davitPatchEmbedInit 2 false]⟩

/-! Index-arithmetic helpers for the round trip. -/

/-- The padded height `H + (ws - H % ws) % ws` is a multiple of `ws`. -/
theorem roundUp_dvd (H ws : Nat) (hws : 0 < ws) : ws ∣ H + (ws - H % ws) % ws := by
  rcases Nat.eq_zero_or_pos (H % ws) with h0 | hpos
  · have h1 : (ws - H % ws) % ws = 0 := by rw [h0, Nat.sub_zero, Nat.mod_self]
    rw [h1, Nat.add_zero]
    exact Nat.dvd_of_mod_eq_zero h0
  · have hlt : H % ws < ws := Nat.mod_lt _ hws
    have hsub : (ws - H % ws) % ws = ws - H % ws := Nat.mod_eq_of_lt (by omega)
    have hdm := Nat.div_add_mod H ws
    have hdist : ws * (H / ws + 1) = ws * (H / ws) + ws := by ring
    rw [hsub]
    exact ⟨H / ws + 1, by omega⟩

/-- Decoding a row-major 3-component encoding: outer component. -/
theorem encode3_div (a b c B2 C2 : Nat) (hb : b < B2) (hc : c < C2) :
    (a * (B2 * C2) + (b * C2 + c)) / (B2 * C2) = a := by
  have hC2 : 0 < C2 := by omega
  have hB2 : 0 < B2 := by omega
  have hlt : b * C2 + c < B2 * C2 := by
    calc b * C2 + c < b * C2 + C2 := by omega
      _ = (b + 1) * C2 := by ring
      _ ≤ B2 * C2 := Nat.mul_le_mul_right _ (by omega)
  rw [Nat.mul_comm a (B2 * C2)]
  rw [Nat.mul_add_div (by positivity)]
  rw [Nat.div_eq_of_lt hlt]
  omega

/-- Decoding a row-major 3-component encoding: middle component. -/
theorem encode3_mid (a b c B2 C2 : Nat) (hb : b < B2) (hc : c < C2) :
    ((a * (B2 * C2) + (b * C2 + c)) / C2) % B2 = b := by
  have hC2 : 0 < C2 := by omega
  have h1 : a * (B2 * C2) + (b * C2 + c) = C2 * (a * B2 + b) + c := by ring
  rw [h1, Nat.mul_add_div hC2, Nat.div_eq_of_lt hc, Nat.add_zero,
      Nat.mul_comm a B2, Nat.mul_add_mod, Nat.mod_eq_of_lt hb]

/-- Decoding a row-major 3-component encoding: inner component. -/
theorem encode3_low (a b c B2 C2 : Nat) (hc : c < C2) :
    (a * (B2 * C2) + (b * C2 + c)) % C2 = c := by
  have h1 : a * (B2 * C2) + (b * C2 + c) = (a * B2 + b) * C2 + c := by ring
  rw [h1, Nat.mul_comm (a * B2 + b) C2, Nat.mul_add_mod, Nat.mod_eq_of_lt hc]

/-- Definitional unfolding of the window-tensor element formula. -/
theorem windowPartition_data (x : Ten4) (ws n p q c : Nat) :
    (windowPartition x ws).1.data n p q c =
    (if (n / ((x.W + (ws - x.W % ws) % ws) / ws)) % ((x.H + (ws - x.H % ws) % ws) / ws) * ws + p < x.H
        ∧ n % ((x.W + (ws - x.W % ws) % ws) / ws) * ws + q < x.W
     then x.data (n / ((x.H + (ws - x.H % ws) % ws) / ws * ((x.W + (ws - x.W % ws) % ws) / ws)))
            ((n / ((x.W + (ws - x.W % ws) % ws) / ws)) % ((x.H + (ws - x.H % ws) % ws) / ws) * ws + p)
            (n % ((x.W + (ws - x.W % ws) % ws) / ws) * ws + q) c
     else 0) := rfl

/-- Definitional unfolding of the batch-size bookkeeping. -/
theorem windowPartition_B (x : Ten4) (ws : Nat) :
    (windowPartition x ws).1.B
    = x.B * ((x.H + (ws - x.H % ws) % ws) / ws) * ((x.W + (ws - x.W % ws) % ws) / ws) := rfl

theorem windowPartition_pad (x : Ten4) (ws : Nat) :
    (windowPartition x ws).2
    = (x.H + (ws - x.H % ws) % ws, x.W + (ws - x.W % ws) % ws) := rfl

theorem windowUnpartition_data (w : Ten4) (ws : Nat) (padHW hw : Nat × Nat)
    (b i j c : Nat) :
    (windowUnpartition w ws padHW hw).data b i j c
    = w.data (b * (padHW.1 / ws * (padHW.2 / ws)) + i / ws * (padHW.2 / ws) + j / ws)
        (i % ws) (j % ws) c := rfl

theorem windowUnpartition_B (w : Ten4) (ws : Nat) (padHW hw : Nat × Nat) :
    (windowUnpartition w ws padHW hw).B = w.B / (padHW.1 * padHW.2 / ws / ws) := rfl

/-- C1. Window partition/unpartition round-trip
(hieradet_sam2.py:38-81): for every `(B, H, W, C)` tensor `x` and every
`window_size ≥ 1`, `window_unpartition(window_partition(x, ws), ws,
(Hp, Wp), (H, W))` has the shape of `x` and reproduces every in-range
element of `x` exactly, covering both the padding and the non-padding
case. -/
theorem window_roundtrip (x : Ten4) (ws : Nat) (hws : 0 < ws)
    (b i j c : Nat) (hb : b < x.B) (hi : i < x.H) (hj : j < x.W) :
    (windowUnpartition (windowPartition x ws).1 ws (windowPartition x ws).2
        (x.H, x.W)).B = x.B ∧
    (windowUnpartition (windowPartition x ws).1 ws (windowPartition x ws).2
        (x.H, x.W)).H = x.H ∧
    (windowUnpartition (windowPartition x ws).1 ws (windowPartition x ws).2
        (x.H, x.W)).W = x.W ∧
    (windowUnpartition (windowPartition x ws).1 ws (windowPartition x ws).2
        (x.H, x.W)).C = x.C ∧
    (windowUnpartition (windowPartition x ws).1 ws (windowPartition x ws).2
        (x.H, x.W)).data b i j c = x.data b i j c := by
  have hH : 0 < x.H := by omega
  have hW : 0 < x.W := by omega
  set padH := (ws - x.H % ws) % ws with hpadH
  set padW := (ws - x.W % ws) % ws with hpadW
  set Hp := x.H + padH with hHp
  set Wp := x.W + padW with hWp
  have hdvdH : ws ∣ Hp := roundUp_dvd x.H ws hws
  have hdvdW : ws ∣ Wp := roundUp_dvd x.W ws hws
  set nh := Hp / ws with hnh
  set nw := Wp / ws with hnw
  have hnhws : nh * ws = Hp := Nat.div_mul_cancel hdvdH
  have hnwws : nw * ws = Wp := Nat.div_mul_cancel hdvdW
  have hHle : x.H ≤ Hp := by omega
  have hWle : x.W ≤ Wp := by omega
  have hnhpos : 0 < nh := by
    rcases Nat.eq_zero_or_pos nh with h0 | h
    · rw [h0, Nat.zero_mul] at hnhws; omega
    · exact h
  have hnwpos : 0 < nw := by
    rcases Nat.eq_zero_or_pos nw with h0 | h
    · rw [h0, Nat.zero_mul] at hnwws; omega
    · exact h
  have hidiv : i / ws < nh := by
    rw [Nat.div_lt_iff_lt_mul hws]; omega
  have hjdiv : j / ws < nw := by
    rw [Nat.div_lt_iff_lt_mul hws]; omega
  -- Hp * Wp / ws / ws = nh * nw
  have hHpWp : Hp * Wp / ws / ws = nh * nw := by
    rw [← hnhws, ← hnwws]
    rw [show nh * ws * (nw * ws) = nh * (nw * ws) * ws by ring]
    rw [Nat.mul_div_cancel _ hws]
    rw [show nh * (nw * ws) = nh * nw * ws by ring]
    rw [Nat.mul_div_cancel _ hws]
  refine ⟨?_, rfl, rfl, rfl, ?_⟩
  · rw [windowUnpartition_B, windowPartition_B, windowPartition_pad]
    show x.B * nh * nw / (Hp * Wp / ws / ws) = x.B
    rw [hHpWp, Nat.mul_assoc, Nat.mul_div_cancel _ (by positivity)]
  · rw [windowUnpartition_data, windowPartition_pad]
    rw [windowPartition_data]
    show (if (b * (nh * nw) + i / ws * nw + j / ws) / nw % nh * ws + i % ws < x.H
            ∧ (b * (nh * nw) + i / ws * nw + j / ws) % nw * ws + j % ws < x.W
          then x.data ((b * (nh * nw) + i / ws * nw + j / ws) / (nh * nw))
                 ((b * (nh * nw) + i / ws * nw + j / ws) / nw % nh * ws + i % ws)
                 ((b * (nh * nw) + i / ws * nw + j / ws) % nw * ws + j % ws) c
          else 0) = x.data b i j c
    have henc : b * (nh * nw) + i / ws * nw + j / ws
        = b * (nh * nw) + (i / ws * nw + j / ws) := by ring
    rw [henc]
    rw [encode3_div b (i / ws) (j / ws) nh nw hidiv hjdiv,
        encode3_mid b (i / ws) (j / ws) nh nw hidiv hjdiv,
        encode3_low b (i / ws) (j / ws) nh nw hjdiv]
    rw [show i / ws * ws + i % ws = i from by
      rw [Nat.mul_comm]; exact Nat.div_add_mod i ws]
    rw [show j / ws * ws + j % ws = j from by
      rw [Nat.mul_comm]; exact Nat.div_add_mod j ws]
    simp [hi, hj]

/-- Witness for C1 at a concrete tensor (`B=1, H=3, W=5, C=2`, window
size 2: the padding case) and a concrete in-range index. -/
theorem window_roundtrip_witness :
    (0 : Nat) < 2 ∧ (0 : Nat) < 1 ∧ (2 : Nat) < 3 ∧ (4 : Nat) < 5 ∧
    ((windowUnpartition
        (windowPartition ⟨1, 3, 5, 2, fun b i j c => (b + 2*i + 3*j + 5*c : ℤ)⟩ 2).1 2
        (windowPartition ⟨1, 3, 5, 2, fun b i j c => (b + 2*i + 3*j + 5*c : ℤ)⟩ 2).2
        (3, 5)).data 0 2 4 1
      = (⟨1, 3, 5, 2, fun b i j c => (b + 2*i + 3*j + 5*c : ℤ)⟩ : Ten4).data 0 2 4 1) :=
  ⟨by decide, by decide, by decide, by decide,
   (window_roundtrip ⟨1, 3, 5, 2, fun b i j c => (b + 2*i + 3*j + 5*c : ℤ)⟩ 2
      (by decide) 0 2 4 1 (by decide) (by decide) (by decide)).2.2.2.2⟩

/-- The three slices of the joint qkv projection coincide with the
spec's per-head Q, K, V when the heads divide the channel count. -/
theorem caQKV_eq (A : ChanAttn) (C : Nat) (x : Nat → Nat → Nat → ℤ)
    (hC : A.numHeads * (C / A.numHeads) = C) (s b h n d : Nat) :
    caQKV A C x s b h n d
      = caQkv3 A C x b n (s * C + (h * (C / A.numHeads) + d)) := by
  simp only [caQKV, hC, Nat.add_assoc]

/-- C3. `ChannelAttention.forward` (davit.py:143-155) computes, per
head: keys scaled by the module's scale constant (`head_dim ** -0.5`,
abstracted as `A.scale` since it is irrational); `attn = softmax(Kᵀ @ V)`
with the token axis as the contraction axis of the product — a
`head_dim × head_dim` matrix, not `tokens × tokens` — whose softmax
normalises along the final axis; output `(attn @ Qᵀ)ᵀ` per head, heads
concatenated and passed through the output projection.  Exact matrix
multiplication: the source forward equals the spec formula as rational
arithmetic whenever `num_heads` divides `C`. -/
theorem chanAttn_spec_eq (A : ChanAttn) (C N : Nat)
    (x : Nat → Nat → Nat → ℤ)
    (hC : A.numHeads * (C / A.numHeads) = C) (b n c : Nat) :
    chanAttnForward A C N x b n c = chanAttnSpec A C N x b n c := by
  have hqkv : ∀ s b2 h2 n2 d2, caQKV A C x s b2 h2 n2 d2
      = caQkv3 A C x b2 n2 (s * C + (h2 * (C / A.numHeads) + d2)) :=
    fun s b2 h2 n2 d2 => caQKV_eq A C x hC s b2 h2 n2 d2
  simp only [chanAttnForward, chanAttnSpec, caX1, caAttnS, caAttention]
  refine congrArg (fun t => t + A.bProj c) ?_
  refine Finset.sum_congr rfl fun c2 _ => ?_
  refine congrArg (fun t => A.wProj c c2 * t) ?_
  refine Finset.sum_congr rfl fun e _ => ?_
  have hq : caQKV A C x 0 b (c2 / (C / A.numHeads)) n e
      = caQkv3 A C x b n (0 + (c2 / (C / A.numHeads) * (C / A.numHeads) + e)) := by
    rw [hqkv]; ring_nf
  have hsm : (caAttention A C N x b (c2 / (C / A.numHeads)) (c2 % (C / A.numHeads)))
      = (fun e2 => ∑ n2 ∈ Finset.range N,
          (A.scale * caQkv3 A C x b n2 (C + (c2 / (C / A.numHeads) * (C / A.numHeads) + c2 % (C / A.numHeads))))
            * caQkv3 A C x b n2 (2 * C + (c2 / (C / A.numHeads) * (C / A.numHeads) + e2))) := by
    funext e2
    refine Finset.sum_congr rfl fun n2 _ => ?_
    rw [hqkv, hqkv]
    ring_nf
  rw [hsm, hq]
  simp only [caQkv3]

/-- Witness for C3 at a concrete single-head module (`smax = id`,
`scale = 1`, unit weights) on a `C = 2`, `N = 1` input. -/
theorem chanAttn_spec_eq_witness :
    (⟨1, 1, fun _ _ => 1, fun _ => 0, fun _ _ => 1, fun _ => 0, id⟩ : ChanAttn).numHeads
        * (2 / (⟨1, 1, fun _ _ => 1, fun _ => 0, fun _ _ => 1, fun _ => 0, id⟩ : ChanAttn).numHeads)
      = 2 ∧
    chanAttnForward ⟨1, 1, fun _ _ => 1, fun _ => 0, fun _ _ => 1, fun _ => 0, id⟩ 2 1
        (fun _ _ c => (c : ℤ)) 0 0 0
      = chanAttnSpec ⟨1, 1, fun _ _ => 1, fun _ => 0, fun _ _ => 1, fun _ => 0, id⟩ 2 1
        (fun _ _ c => (c : ℤ)) 0 0 0 :=
  ⟨by decide,
   chanAttn_spec_eq ⟨1, 1, fun _ _ => 1, fun _ => 0, fun _ _ => 1, fun _ => 0, id⟩ 2 1
     (fun _ _ c => (c : ℤ)) (by decide) 0 0 0⟩

/-! ## Claims C2 and C10 -/

/-- C2 (counterexample). The claim as stated — "the residual shortcut
… is a linear projection of the *pre-norm* block input" — is false on
the code: `MultiScaleBlock.forward` assigns `x = self.norm1(x)` on line
182 BEFORE computing `shortcut = do_pool(self.proj(x), self.pool)` on
line 186, so the projection acts on the post-norm tensor.  At the
concrete block `cexBlock` (whose `norm1` doubles its input, as a stand-in
for the non-identity LayerNorm) on the all-ones input, the code's output
entry is 6 while the claimed pre-norm pipeline yields 5. -/
theorem shortcut_prenorm_cex :
    (msBlockForward cexBlock cexInput).map (fun t => t.data 0 0 0 0)
      ≠ (msBlockForwardClaim cexBlock cexInput).map (fun t => t.data 0 0 0 0) := by
  decide

/-- C2 (amended). In every `MultiScaleBlock` with `dim_in ≠ dim_out`,
the residual shortcut added after the attention branch is the linear
projection of the POST-norm (`norm1`-normalized) input, downsampled
with the same pooling the attention branch applies to the queries
(`q_pool=self.pool`, hieradet_sam2.py:162-167, 186); when the
dimensions are equal the shortcut is the unmodified input.  Stated as:
the source forward IS the §4.6 pipeline instantiated with exactly that
`ShortcutCompute`, whose identity case is the raw input. -/
theorem shortcut_postnorm (blk : MSBlock) (x : Ten4) :
    msBlockForward blk x = msBlockPipeline blk (shortcutCompute blk x) x ∧
    (blk.dim = blk.dim_out → shortcutCompute blk x = x) := by
  refine ⟨rfl, fun h => ?_⟩
  simp [shortcutCompute, h]

/-- Witness for C2's amended theorem at the equal-dimension block. -/
theorem shortcut_postnorm_witness :
    msBlockForward cexBlockEq cexInput
      = msBlockPipeline cexBlockEq (shortcutCompute cexBlockEq cexInput) cexInput ∧
    cexBlockEq.dim = cexBlockEq.dim_out ∧
    shortcutCompute cexBlockEq cexInput = cexInput :=
  ⟨(shortcut_postnorm cexBlockEq cexInput).1, by decide,
   (shortcut_postnorm cexBlockEq cexInput).2 (by decide)⟩

/-- C10. A `MultiScaleBlock` constructed with a query-pool stride and
`window_size = 0` raises `ZeroDivisionError` in forward: after
attention it computes `window_size = self.window_size // self.q_stride[0]
= 0` and then `feat_size[0] % window_size` (hieradet_sam2.py:199-203)
divides by zero, so forward is total only when `window_size > 0`
whenever `q_stride` is set.  Every shipped configuration satisfies the
precondition: in all five registered models no `global_att_blocks`
index coincides with a q-pool block, so every q-pool block keeps a
positive window size. -/
theorem qpool_global_divzero :
    (∀ (blk : MSBlock) (x : Ten4) (qs : Nat × Nat), blk.qStride = some qs →
        blk.window_size = 0 → msBlockForward blk x = none) ∧
    (∀ i ∈ qPoolBlocksNat sam2DefaultCfg, 0 < (blockAt sam2DefaultCfg i).window_size) ∧
    (∀ i ∈ qPoolBlocksNat sam2TinyCfg, 0 < (blockAt sam2TinyCfg i).window_size) ∧
    (∀ i ∈ qPoolBlocksNat sam2SmallCfg, 0 < (blockAt sam2SmallCfg i).window_size) ∧
    (∀ i ∈ qPoolBlocksNat sam2BasePlusCfg, 0 < (blockAt sam2BasePlusCfg i).window_size) ∧
    (∀ i ∈ qPoolBlocksNat sam2LargeCfg, 0 < (blockAt sam2LargeCfg i).window_size) := by
  refine ⟨fun blk x qs hq hw => ?_, by decide, by decide, by decide, by decide, by decide⟩
  simp [msBlockForward, hq, hw, pyMod]

/-- Witness for C10 at a concrete global-attention q-pool block. -/
theorem qpool_global_divzero_witness :
    cexBlockDiv.qStride = some (2, 2) ∧ cexBlockDiv.window_size = 0 ∧
    msBlockForward cexBlockDiv cexInput = none :=
  ⟨by decide, by decide,
   qpool_global_divzero.1 cexBlockDiv cexInput (2, 2) (by decide) (by decide)⟩

/-! ## Claim C5: lagged window-size assignment -/

/-- Counting `≤ a` splits into counting `< a` plus the multiplicity of
`a` itself. -/
theorem countP_le_split (l : List Int) (a : Int) :
    l.countP (fun e => decide (e ≤ a))
      = l.countP (fun e => decide (e < a)) + l.count a := by
  induction l with
  | nil => simp
  | cons b t ih =>
    simp only [List.countP_cons, List.count_cons, ih]
    rcases lt_trichotomy b a with h | h | h
    · have h1 : b ≤ a := le_of_lt h
      have h3 : ¬ b = a := ne_of_lt h
      simp [h1, h, h3]
      omega
    · subst h
      simp
      omega
    · have h1 : ¬ b ≤ a := by omega
      have h2 : ¬ b < a := by omega
      have h3 : ¬ b = a := by omega
      simp [h1, h2, h3]

/-- In a strictly increasing list, exactly `s` elements are smaller
than the element at position `s`. -/
theorem countP_lt_get (l : List Int) (hp : l.Pairwise (· < ·)) :
    ∀ (s : Nat) (hs : s < l.length),
      l.countP (fun e => decide (e < l.get ⟨s, hs⟩)) = s := by
  induction l with
  | nil => intro s hs; simp at hs
  | cons b t ih =>
    intro s hs
    obtain ⟨hb, ht⟩ := List.pairwise_cons.mp hp
    cases s with
    | zero =>
      simp only [List.get, List.countP_cons]
      have h1 : t.countP (fun e => decide (e < b)) = 0 :=
        List.countP_eq_zero.mpr (fun e he => by
          simp only [decide_eq_true_eq]
          exact not_lt.mpr (le_of_lt (hb e he)))
      simp [h1]
    | succ s =>
      have hs' : s < t.length := by simpa using Nat.lt_of_succ_lt_succ hs
      have hgm : t.get ⟨s, hs'⟩ ∈ t := List.get_mem t s hs'
      have h1 : decide (b < t.get ⟨s, hs'⟩) = true := decide_eq_true (hb _ hgm)
      simp only [List.get, List.countP_cons]
      rw [ih ht s hs', h1]
      simp

/-- Strict monotonicity of stage prefix sums for positive stage
depths. -/
theorem sumTake_lt (l : List Nat) (hpos : ∀ d ∈ l, 0 < d) :
    ∀ i j, i < j → j ≤ l.length → sumTake l i < sumTake l j := by
  intro i j hij hj
  induction j with
  | zero => omega
  | succ k ih =>
    have hk : k < l.length := by omega
    have hsucc : sumTake l (k + 1) = sumTake l k + l.get ⟨k, hk⟩ :=
      List.sum_take_succ l k hk
    have hpk : 0 < l.get ⟨k, hk⟩ := hpos _ (List.get_mem l k hk)
    rcases Nat.lt_or_ge i k with h | h
    · exact lt_trans (ih h (by omega)) (by omega)
    · have hik : i = k := by omega
      subst hik
      omega

/-- The `stage_ends` list is strictly increasing when every stage is
nonempty. -/
theorem stageEnds_pairwise (cfg : HieraCfg)
    (hpos : ∀ d ∈ cfg.stages, 0 < d) :
    (stageEnds cfg).Pairwise (· < ·) := by
  unfold stageEnds
  rw [List.pairwise_map]
  refine (List.pairwise_lt_range _).imp_of_mem ?_
  intro a b ha hb hab
  have hb' : b < cfg.stages.length := List.mem_range.mp hb
  have : sumTake cfg.stages (a + 1) < sumTake cfg.stages (b + 1) :=
    sumTake_lt cfg.stages hpos (a + 1) (b + 1) (by omega) (by omega)
  omega

/-- Every stage end is a valid (nonnegative) block index when every
stage is nonempty. -/
theorem stageEnds_nonneg (cfg : HieraCfg)
    (hpos : ∀ d ∈ cfg.stages, 0 < d) :
    ∀ e ∈ stageEnds cfg, 0 ≤ e := by
  intro e he
  unfold stageEnds at he
  obtain ⟨k, hk, rfl⟩ := List.mem_map.mp he
  have hk' : k < cfg.stages.length := List.mem_range.mp hk
  have : sumTake cfg.stages 0 < sumTake cfg.stages (k + 1) :=
    sumTake_lt cfg.stages hpos 0 (k + 1) (by omega) (by omega)
  have h0 : sumTake cfg.stages 0 = 0 := rfl
  omega

/-- Constructor-loop invariant: `cur_stage` at the start of iteration
`i` counts the stage ends strictly before block `i - 1`, i.e. the
stage shifts already processed. -/
theorem curStage_countP (cfg : HieraCfg)
    (hnd : (stageEnds cfg).Nodup)
    (h0 : ∀ e ∈ stageEnds cfg, 0 ≤ e) (i : Nat) :
    (stateAt cfg i).curStage
      = (stageEnds cfg).countP (fun e => decide (e + 1 < (i : Int))) := by
  induction i with
  | zero =>
    simp only [stateAt]
    symm
    refine List.countP_eq_zero.mpr (fun e he => ?_)
    simp only [decide_eq_true_eq]
    have := h0 e he
    omega
  | succ i ih =>
    show (stepState cfg i (stateAt cfg i)).curStage = _
    unfold stepState
    simp only [ih]
    have hsplit : (stageEnds cfg).countP (fun e => decide (e + 1 < ((i : Nat) + 1 : Int)))
        = (stageEnds cfg).countP (fun e => decide (e ≤ (i : Int) - 1)) :=
      congrArg (fun p => List.countP p (stageEnds cfg))
        (funext fun e => decide_eq_decide.mpr (by omega))
    have hlt : (stageEnds cfg).countP (fun e => decide (e < (i : Int) - 1))
        = (stageEnds cfg).countP (fun e => decide (e + 1 < (i : Int))) :=
      congrArg (fun p => List.countP p (stageEnds cfg))
        (funext fun e => decide_eq_decide.mpr (by omega))
    have hcount : (stageEnds cfg).count ((i : Int) - 1)
        = if ((i : Int) - 1) ∈ stageEnds cfg then 1 else 0 := by
      split
      · exact List.count_eq_one_of_mem hnd (by assumption)
      · exact List.count_eq_zero_of_not_mem (by assumption)
    push_cast
    rw [hsplit, countP_le_split, hlt, hcount]

/-- C5. Lagged window-size assignment (hieradet_sam2.py:331-362): for
every stage `s ≥ 1` of any configuration with nonempty stages and a
window spec per stage, the first block of stage `s` — the block at
index `stage_ends[s-1] + 1 = sum(stages[:s])` — is constructed with
window size `window_spec[s-1]`, the previous stage's entry (the window
is read from `window_spec[cur_stage]` on line 340 before `cur_stage` is
incremented on line 348), unless that block's index is listed in
`global_att_blocks`, in which case its window size is 0. -/
theorem lagged_window_assignment (cfg : HieraCfg)
    (hpos : ∀ d ∈ cfg.stages, 0 < d)
    (hlen : cfg.windowSpec.length = cfg.stages.length)
    (s : Nat) (hs1 : 1 ≤ s) (hs : s < cfg.stages.length) :
    (blockAt cfg (sumTake cfg.stages s)).window_size
      = if isGlobalAtt cfg (sumTake cfg.stages s) then 0
        else cfg.windowSpec.getD (s - 1) 0 := by
  have hpair := stageEnds_pairwise cfg hpos
  have hnd : (stageEnds cfg).Nodup := hpair.imp (fun h => ne_of_lt h)
  have h0 := stageEnds_nonneg cfg hpos
  have hcs := curStage_countP cfg hnd h0 (sumTake cfg.stages s)
  have hlen' : s - 1 < (stageEnds cfg).length := by
    unfold stageEnds
    simp only [List.length_map, List.length_range]
    omega
  have hget : (stageEnds cfg).get ⟨s - 1, hlen'⟩
      = (sumTake cfg.stages s : Int) - 1 := by
    unfold stageEnds
    simp only [List.get_map, List.get_range]
    rw [show s - 1 + 1 = s from by omega]
  have hpred : (fun (e : Int) => decide (e + 1 < (sumTake cfg.stages s : Int)))
      = (fun e => decide (e < (stageEnds cfg).get ⟨s - 1, hlen'⟩)) := by
    refine funext fun e => decide_eq_decide.mpr ?_
    rw [hget]
    omega
  rw [hpred, countP_lt_get _ hpair (s - 1) hlen'] at hcs
  show (mkBlock cfg (sumTake cfg.stages s) (stateAt cfg (sumTake cfg.stages s))).window_size = _
  unfold mkBlock
  simp only [hcs]

/-- Witness for C5 at the stock configuration, stage `s = 1`: the first
block of stage 1 is block 2 (not a global-attention block) and receives
stage 0's window size 8, not stage 1's 4. -/
theorem lagged_window_assignment_witness :
    (∀ d ∈ sam2DefaultCfg.stages, 0 < d) ∧
    sam2DefaultCfg.windowSpec.length = sam2DefaultCfg.stages.length ∧
    (1 : Nat) ≤ 1 ∧ 1 < sam2DefaultCfg.stages.length ∧
    (blockAt sam2DefaultCfg (sumTake sam2DefaultCfg.stages 1)).window_size
      = if isGlobalAtt sam2DefaultCfg (sumTake sam2DefaultCfg.stages 1) then 0
        else sam2DefaultCfg.windowSpec.getD 0 0 :=
  ⟨by decide, by decide, by decide, by decide,
   lagged_window_assignment sam2DefaultCfg (by decide) (by decide) 1
     (by decide) (by decide)⟩

/-! ## Claim C4: query pooling -/

/-- Element-level identification of the reshaped query map
(`q.reshape(B, H, W, -1)`) with the spec's per-head spatial query
projection, at any in-range column index. -/
theorem msaQ4_specQ (A : MSAttn) (x : Ten4) (hxC : x.C = A.dim)
    (b i j h d : Nat) (hj : j < x.W) (hd : d < A.dim_out / A.numHeads) :
    (msaQ4 A x).data b i j (h * (A.dim_out / A.numHeads) + d)
      = specQ A x b h i j d := by
  have hW : 0 < x.W := by omega
  have hhd : 0 < A.dim_out / A.numHeads := by omega
  have hdiv : (i * x.W + j) / x.W = i := by
    rw [Nat.mul_comm, Nat.mul_add_div hW, Nat.div_eq_of_lt hj]
    omega
  have hmod : (i * x.W + j) % x.W = j := by
    rw [Nat.mul_comm i x.W, Nat.mul_add_mod, Nat.mod_eq_of_lt hj]
  have hcdiv : (h * (A.dim_out / A.numHeads) + d) / (A.dim_out / A.numHeads) = h := by
    rw [Nat.mul_comm, Nat.mul_add_div hhd, Nat.div_eq_of_lt hd]
    omega
  have hcmod : (h * (A.dim_out / A.numHeads) + d) % (A.dim_out / A.numHeads) = d := by
    rw [Nat.mul_comm h (A.dim_out / A.numHeads), Nat.mul_add_mod, Nat.mod_eq_of_lt hd]
  show msaQKV A x 0 b (i * x.W + j) _ _ = _
  unfold msaQKV specQ linearT
  simp only [hdiv, hmod, hcdiv, hcmod, Nat.zero_mul, Nat.zero_add, hxC]

/-- C4. Query pooling (hieradet_sam2.py:20-35, 105-130, 331-362), in
four parts.  (1) With a stride-(2,2) query pool, `MultiScaleAttention`
keeps the batch, halves each spatial extent (so the output token count
is exactly one quarter of the input token count when H and W are even)
and emits `dim_out` channels.  (2) The query operand handed to SDPA is
exactly the strided max-pool of the spec's per-head query map — pooling
touches the queries only.  (3) The key and value operands handed to
SDPA are the unpooled projections indexed over the full input token
grid: keys and values keep the full input token count.  (4) In the
constructed model, every q-pool block is a stage-shift block whose
channel count changes by exactly the configured `dim_mul` factor
(`dim_out = int(dim * dim_mul)`; with the shipped `dim_mul = 2.0`,
`dim_out = 2 * dim`), and it is exactly these blocks that receive the
`q_stride`. -/
theorem query_pooling :
    (∀ (A : MSAttn) (x : Ten4), A.qPool = some (2, 2) → 2 ∣ x.H → 2 ∣ x.W →
        0 < x.H → 0 < x.W →
        (msAttnForward A x).B = x.B ∧
        (msAttnForward A x).H = x.H / 2 ∧
        (msAttnForward A x).W = x.W / 2 ∧
        (msAttnForward A x).C = A.dim_out ∧
        (msAttnForward A x).H * (msAttnForward A x).W * 4 = x.H * x.W) ∧
    (∀ (A : MSAttn) (x : Ten4) (k : Nat × Nat), A.qPool = some k → 0 < k.2 →
        k.2 ≤ x.W → x.C = A.dim →
        ∀ b h n d, d < A.dim_out / A.numHeads →
          (msaAttnIn A x).1 b n h d = specPooledQ A k x b h n d) ∧
    (∀ (A : MSAttn) (x : Ten4),
        A.numHeads * (A.dim_out / A.numHeads) = A.dim_out → x.C = A.dim →
        ∀ b h n d,
          msaQKV A x 1 b n h d = specK A x b h n d ∧
          msaQKV A x 2 b n h d = specV A x b h n d) ∧
    (∀ (cfg : HieraCfg) (i : Nat), (i : Int) ∈ qPoolBlocks cfg →
        (blockAt cfg i).qStride = some cfg.qStride ∧
        (blockAt cfg i).dim_out = pyIntNat (((blockAt cfg i).dim : ℚ) * cfg.dimMul) ∧
        (cfg.dimMul = 2 → (blockAt cfg i).dim_out = 2 * (blockAt cfg i).dim)) := by
  refine ⟨?_, ?_, ?_, ?_⟩
  · -- (1) shapes
    intro A x hq h2H h2W hH hW
    have hin : (msaAttnIn A x).2 = ((x.H - 2) / 2 + 1, (x.W - 2) / 2 + 1) := by
      simp [msaAttnIn, hq, maxPool2d, msaQ4]
    have hH' : (msAttnForward A x).H = (x.H - 2) / 2 + 1 := by
      show (msaAttnIn A x).2.1 = _
      rw [hin]
    have hW' : (msAttnForward A x).W = (x.W - 2) / 2 + 1 := by
      show (msaAttnIn A x).2.2 = _
      rw [hin]
    refine ⟨rfl, ?_, ?_, rfl, ?_⟩
    · rw [hH']; omega
    · rw [hW']; omega
    · rw [hH', hW']
      obtain ⟨a, ha⟩ := h2H
      obtain ⟨c, hc⟩ := h2W
      have ha1 : 1 ≤ a := by omega
      have hc1 : 1 ≤ c := by omega
      have h1 : (x.H - 2) / 2 + 1 = a := by omega
      have h2 : (x.W - 2) / 2 + 1 = c := by omega
      rw [h1, h2, ha, hc]
      ring
  · -- (2) pooled queries
    intro A x k hq hk2 hkW hxC b h n d hd
    have hW2pos : 0 < (x.W - k.2) / k.2 + 1 := Nat.succ_pos _
    have hW2k : ((x.W - k.2) / k.2 + 1) * k.2 ≤ x.W := by
      have h1 : (x.W - k.2) / k.2 * k.2 ≤ x.W - k.2 := Nat.div_mul_le_self _ _
      calc ((x.W - k.2) / k.2 + 1) * k.2
          = (x.W - k.2) / k.2 * k.2 + k.2 := by ring
        _ ≤ (x.W - k.2) + k.2 := Nat.add_le_add_right h1 _
        _ = x.W := Nat.sub_add_cancel hkW
    have hjlt : ∀ m : Nat,
        n % ((x.W - k.2) / k.2 + 1) * k.2 + m % k.2 < x.W := by
      intro m
      have hmod : n % ((x.W - k.2) / k.2 + 1) ≤ (x.W - k.2) / k.2 :=
        Nat.le_of_lt_succ (Nat.mod_lt _ hW2pos)
      have h2 : n % ((x.W - k.2) / k.2 + 1) * k.2 ≤ (x.W - k.2) / k.2 * k.2 :=
        Nat.mul_le_mul_right _ hmod
      have h3 : (x.W - k.2) / k.2 * k.2 + k.2 = ((x.W - k.2) / k.2 + 1) * k.2 := by ring
      have h4 : m % k.2 < k.2 := Nat.mod_lt _ hk2
      have h5 : n % ((x.W - k.2) / k.2 + 1) * k.2 + m % k.2
          < (x.W - k.2) / k.2 * k.2 + k.2 := Nat.add_lt_add_of_le_of_lt h2 h4
      have h6 : (x.W - k.2) / k.2 * k.2 + k.2 ≤ x.W := by rw [h3]; exact hW2k
      exact lt_of_lt_of_le h5 h6
    have hel : ∀ i' j' : Nat, j' < x.W →
        (msaQ4 A x).data b i' j' (h * (A.dim_out / A.numHeads) + d)
          = specQ A x b h i' j' d :=
      fun i' j' hj => msaQ4_specQ A x hxC b i' j' h d hj hd
    simp only [msaAttnIn, hq]
    show (maxPool2d k (msaQ4 A x)).data b
        (n / (maxPool2d k (msaQ4 A x)).W) (n % (maxPool2d k (msaQ4 A x)).W)
        (h * (A.dim_out / A.numHeads) + d) = _
    have hpW : (maxPool2d k (msaQ4 A x)).W = (x.W - k.2) / k.2 + 1 := rfl
    rw [hpW]
    show ((List.range (k.1 * k.2)).map fun m =>
        (msaQ4 A x).data b (n / ((x.W - k.2) / k.2 + 1) * k.1 + m / k.2)
          (n % ((x.W - k.2) / k.2 + 1) * k.2 + m % k.2)
          (h * (A.dim_out / A.numHeads) + d)).foldl max
        ((msaQ4 A x).data b (n / ((x.W - k.2) / k.2 + 1) * k.1)
          (n % ((x.W - k.2) / k.2 + 1) * k.2)
          (h * (A.dim_out / A.numHeads) + d)) = _
    have hseed : (msaQ4 A x).data b (n / ((x.W - k.2) / k.2 + 1) * k.1)
          (n % ((x.W - k.2) / k.2 + 1) * k.2)
          (h * (A.dim_out / A.numHeads) + d)
        = specQ A x b h (n / ((x.W - k.2) / k.2 + 1) * k.1)
            (n % ((x.W - k.2) / k.2 + 1) * k.2) d := by
      have := hjlt 0
      refine hel _ _ ?_
      simpa using this
    have hmap : (fun m => (msaQ4 A x).data b
          (n / ((x.W - k.2) / k.2 + 1) * k.1 + m / k.2)
          (n % ((x.W - k.2) / k.2 + 1) * k.2 + m % k.2)
          (h * (A.dim_out / A.numHeads) + d))
        = (fun m => specQ A x b h
            (n / ((x.W - k.2) / k.2 + 1) * k.1 + m / k.2)
            (n % ((x.W - k.2) / k.2 + 1) * k.2 + m % k.2) d) :=
      funext fun m => hel _ _ (hjlt m)
    rw [hseed, hmap]
    rfl
  · -- (3) full-resolution keys and values
    intro A x hdvd hxC b h n d
    constructor
    · unfold msaQKV specK linearT
      simp only [Nat.one_mul, hdvd, hxC, Nat.add_assoc]
    · unfold msaQKV specV linearT
      simp only [hdvd, hxC, Nat.add_assoc]
  · -- (4) construction: q-pool blocks are the dim_mul stage shifts
    intro cfg i hmem
    have h1 : (i : Int) ∈ (stageEnds cfg).dropLast.map (fun e => e + 1) :=
      List.mem_of_mem_take hmem
    obtain ⟨e, he, heq⟩ := List.mem_map.mp h1
    have he2 : e ∈ stageEnds cfg := (List.dropLast_sublist _).subset he
    have hshift : ((i : Int) - 1) ∈ stageEnds cfg := by
      rw [show (i : Int) - 1 = e from by omega]
      exact he2
    refine ⟨?_, ?_, ?_⟩
    · show (mkBlock cfg i (stateAt cfg i)).qStride = _
      unfold mkBlock
      dsimp only
      rw [if_pos hmem]
    · show (mkBlock cfg i (stateAt cfg i)).dim_out
        = pyIntNat (((mkBlock cfg i (stateAt cfg i)).dim : ℚ) * cfg.dimMul)
      unfold mkBlock
      dsimp only
      rw [if_pos hshift]
    · intro hdm
      show (mkBlock cfg i (stateAt cfg i)).dim_out = 2 * (mkBlock cfg i (stateAt cfg i)).dim
      unfold mkBlock
      dsimp only
      rw [if_pos hshift, hdm]
      unfold pyIntNat
      rw [show ((stateAt cfg i).embedDim : ℚ) * 2
          = ((2 * (stateAt cfg i).embedDim : Nat) : ℚ) from by push_cast; ring]
      rw [Int.floor_natCast, Int.toNat_natCast]

/-- Witness for C4 at the concrete `c4Attn` module on the `2 × 2`
input, and at q-pool block 2 of the stock configuration. -/
theorem query_pooling_witness :
    (2 ∣ c4Input.H ∧ 2 ∣ c4Input.W ∧ 0 < c4Input.H ∧ 0 < c4Input.W) ∧
    ((msAttnForward c4Attn c4Input).H = c4Input.H / 2 ∧
     (msAttnForward c4Attn c4Input).W = c4Input.W / 2 ∧
     (msAttnForward c4Attn c4Input).C = c4Attn.dim_out ∧
     (msAttnForward c4Attn c4Input).H * (msAttnForward c4Attn c4Input).W * 4
       = c4Input.H * c4Input.W) ∧
    (msaAttnIn c4Attn c4Input).1 0 0 0 0 = specPooledQ c4Attn (2, 2) c4Input 0 0 0 0 ∧
    msaQKV c4Attn c4Input 1 0 0 0 0 = specK c4Attn c4Input 0 0 0 0 ∧
    ((2 : Int) ∈ qPoolBlocks sam2DefaultCfg ∧
     (blockAt sam2DefaultCfg 2).qStride = some sam2DefaultCfg.qStride ∧
     (blockAt sam2DefaultCfg 2).dim_out = 2 * (blockAt sam2DefaultCfg 2).dim) :=
  ⟨⟨by decide, by decide, by decide, by decide⟩,
   ⟨(query_pooling.1 c4Attn c4Input rfl (by decide) (by decide) (by decide) (by decide)).2.1,
    (query_pooling.1 c4Attn c4Input rfl (by decide) (by decide) (by decide) (by decide)).2.2.1,
    (query_pooling.1 c4Attn c4Input rfl (by decide) (by decide) (by decide) (by decide)).2.2.2.1,
    (query_pooling.1 c4Attn c4Input rfl (by decide) (by decide) (by decide) (by decide)).2.2.2.2⟩,
   query_pooling.2.1 c4Attn c4Input (2, 2) rfl (by decide) (by decide) (by decide) 0 0 0 0 (by decide),
   (query_pooling.2.2.1 c4Attn c4Input (by decide) (by decide) 0 0 0 0).1,
   ⟨by decide,
    (query_pooling.2.2.2 sam2DefaultCfg 2 (by decide)).1,
    (query_pooling.2.2.2 sam2DefaultCfg 2 (by decide)).2.2 (by decide)⟩⟩

/-! ## Claim C7: early exit -/

/-- Element access into `stage_ends` (as block indices). -/
theorem stageEndsNat_getD (cfg : HieraCfg) (k : Nat)
    (hk : k < cfg.stages.length) :
    (stageEndsNat cfg).getD k 0
      = ((sumTake cfg.stages (k + 1) : Int) - 1).toNat := by
  unfold stageEndsNat stageEnds
  rw [List.getD_eq_getElem?_getD, List.getElem?_map, List.getElem?_map,
      List.getElem?_range hk]
  rfl

theorem stageEndsNat_length (cfg : HieraCfg) :
    (stageEndsNat cfg).length = cfg.stages.length := by
  unfold stageEndsNat stageEnds
  simp

/-- C7. Early exit (hieradet_sam2.py:442-491): with `coarse=True,
stop_early=True` the traversal executes `self.blocks[:max_index + 1]`,
i.e. exactly up to the last requested stage end.  Requesting only the
first pyramid entry executes exactly the first stage's blocks;
requesting all entries executes every block; and for every multi-stage
configuration (at least two nonempty stages) the former is strictly
fewer. -/
theorem early_exit (cfg : HieraCfg) (hlen : 2 ≤ cfg.stages.length)
    (hpos : ∀ d ∈ cfg.stages, 0 < d) :
    blocksEvaluated cfg (.explicitIdx [0]) = cfg.stages.headI ∧
    blocksEvaluated cfg .all = cfg.stages.sum ∧
    blocksEvaluated cfg (.explicitIdx [0]) < blocksEvaluated cfg .all := by
  obtain ⟨a, t, hl⟩ : ∃ a t, cfg.stages = a :: t := by
    cases h : cfg.stages with
    | nil => rw [h] at hlen; simp at hlen
    | cons a t => exact ⟨a, t, rfl⟩
  obtain ⟨b, t2, ht⟩ : ∃ b t2, t = b :: t2 := by
    cases h : t with
    | nil => rw [hl, h] at hlen; simp at hlen
    | cons b t2 => exact ⟨b, t2, rfl⟩
  have ha : 0 < a := hpos a (by rw [hl]; exact List.mem_cons_self a t)
  have hb : 0 < b := hpos b (by rw [hl, ht]; exact List.mem_cons_of_mem _ (List.mem_cons_self _ _))
  have hsum : cfg.stages.sum = a + (b + t2.sum) := by rw [hl, ht]; simp
  have hfirst : blocksEvaluated cfg (.explicitIdx [0]) = a := by
    unfold blocksEvaluated featureTakeIndices
    dsimp only
    have h0 : (0 : Nat) < cfg.stages.length := by omega
    rw [show (List.foldl max 0 [0]) = 0 from rfl]
    rw [stageEndsNat_getD cfg 0 h0]
    have h1 : sumTake cfg.stages 1 = a := by rw [hl]; simp [sumTake]
    rw [h1]
    have h2 : ((a : Int) - 1).toNat + 1 = a := by omega
    rw [h2]
    omega
  have hall : blocksEvaluated cfg .all = cfg.stages.sum := by
    unfold blocksEvaluated featureTakeIndices
    dsimp only
    rw [stageEndsNat_length]
    have h0 : cfg.stages.length - 1 < cfg.stages.length := by omega
    rw [stageEndsNat_getD cfg _ h0]
    have h1 : cfg.stages.length - 1 + 1 = cfg.stages.length := by omega
    rw [h1]
    have h2 : sumTake cfg.stages cfg.stages.length = cfg.stages.sum := by
      unfold sumTake
      rw [List.take_length]
    rw [h2]
    have h3 : 0 < cfg.stages.sum := by omega
    have h4 : ((cfg.stages.sum : Int) - 1).toNat + 1 = cfg.stages.sum := by omega
    rw [h4]
    omega
  refine ⟨by rw [hfirst, hl]; simp, hall, ?_⟩
  rw [hfirst, hall]
  omega

/-- Witness for C7 at the `sam2_hiera_tiny` configuration: requesting
only the first pyramid entry runs 1 block, requesting all runs all
12. -/
theorem early_exit_witness :
    (2 ≤ sam2TinyCfg.stages.length ∧ ∀ d ∈ sam2TinyCfg.stages, 0 < d) ∧
    blocksEvaluated sam2TinyCfg (.explicitIdx [0]) = sam2TinyCfg.stages.headI ∧
    blocksEvaluated sam2TinyCfg .all = sam2TinyCfg.stages.sum ∧
    blocksEvaluated sam2TinyCfg (.explicitIdx [0]) < blocksEvaluated sam2TinyCfg .all :=
  ⟨⟨by decide, by decide⟩,
   (early_exit sam2TinyCfg (by decide) (by decide)).1,
   (early_exit sam2TinyCfg (by decide) (by decide)).2.1,
   (early_exit sam2TinyCfg (by decide) (by decide)).2.2⟩

/-! ## Claim C8: padding transparency -/

/-- Stage-0 patch embed: `ceil(H / 4) = (H + 3) / 4` output extent,
for any positive input extent (pad to a multiple of 4, then the 7×7
stride-4 pad-3 convolution). -/
theorem pe4Size (ov : Bool) (H W : Nat) (hH : 0 < H) (hW : 0 < W) :
    davitPatchEmbedForwardSize (davitPatchEmbedInit 4 ov) H W
      = .ok ((H + 3) / 4, (W + 3) / 4) := by
  show Except.ok (convOut ⟨7, 4, 3⟩ (padUp 4 H), convOut ⟨7, 4, 3⟩ (padUp 4 W)) = _
  unfold convOut padUp
  refine congrArg Except.ok ?_
  refine Prod.ext ?_ ?_ <;> · simp only
                              split_ifs <;> omega

/-- Inter-stage patch embed: `ceil(H / 2) = (H + 1) / 2` output extent
for both the overlapped (kernel 3, pad 1) and non-overlapped (kernel 2,
pad 0) variants. -/
theorem pe2Size (ov : Bool) (H W : Nat) (hH : 0 < H) (hW : 0 < W) :
    davitPatchEmbedForwardSize (davitPatchEmbedInit 2 ov) H W
      = .ok ((H + 1) / 2, (W + 1) / 2) := by
  cases ov
  · show Except.ok (convOut ⟨2, 2, 0⟩ (padUp 2 H), convOut ⟨2, 2, 0⟩ (padUp 2 W)) = _
    unfold convOut padUp
    refine congrArg Except.ok ?_
    refine Prod.ext ?_ ?_ <;> · simp only
                                split_ifs <;> omega
  · show Except.ok (convOut ⟨3, 2, 1⟩ (padUp 2 H), convOut ⟨3, 2, 1⟩ (padUp 2 W)) = _
    unfold convOut padUp
    refine congrArg Except.ok ?_
    refine Prod.ext ?_ ?_ <;> · simp only
                                split_ifs <;> omega

/-- C8. Padding transparency (davit.py:107-129): a forward call on an
input whose extent is not a stride multiple does not fail — for the
supported patch sizes it returns `ok` with spatial size exactly
`ceil(H/stride) × ceil(W/stride)` (stride 4 initially, stride 2 at
re-embedding stages), always at least 1; and the zero padding applied
before the convolution sits on the bottom/right edges only: the
original region keeps its values at unshifted indices and the pad
region reads zero. -/
theorem padding_transparency :
    (∀ (ov : Bool) (H W : Nat), 0 < H → 0 < W →
        davitPatchEmbedForwardSize (davitPatchEmbedInit 4 ov) H W
          = .ok ((H + 3) / 4, (W + 3) / 4) ∧ 0 < (H + 3) / 4 ∧ 0 < (W + 3) / 4) ∧
    (∀ (ov : Bool) (H W : Nat), 0 < H → 0 < W →
        davitPatchEmbedForwardSize (davitPatchEmbedInit 2 ov) H W
          = .ok ((H + 1) / 2, (W + 1) / 2) ∧ 0 < (H + 1) / 2 ∧ 0 < (W + 1) / 2) ∧
    (∀ (H W : Nat) (x : Nat → Nat → Nat → Nat → ℤ) (b c i j : Nat),
        i < H → j < W → padBR H W x b c i j = x b c i j) ∧
    (∀ (H W : Nat) (x : Nat → Nat → Nat → Nat → ℤ) (b c i j : Nat),
        H ≤ i ∨ W ≤ j → padBR H W x b c i j = 0) := by
  refine ⟨?_, ?_, ?_, ?_⟩
  · intro ov H W hH hW
    exact ⟨pe4Size ov H W hH hW, by omega, by omega⟩
  · intro ov H W hH hW
    exact ⟨pe2Size ov H W hH hW, by omega, by omega⟩
  · intro H W x b c i j hi hj
    unfold padBR
    rw [if_pos ⟨hi, hj⟩]
  · intro H W x b c i j hij
    unfold padBR
    rw [if_neg (by omega)]

/-- Witness for C8 on a 223 × 225 input (neither a multiple of 4 nor
of 2). -/
theorem padding_transparency_witness :
    (davitPatchEmbedForwardSize (davitPatchEmbedInit 4 false) 223 225
        = .ok (56, 57) ∧ 0 < (223 + 3) / 4 ∧ 0 < (225 + 3) / 4) ∧
    (davitPatchEmbedForwardSize (davitPatchEmbedInit 2 true) 223 225
        = .ok (112, 113) ∧ 0 < (223 + 1) / 2 ∧ 0 < (225 + 1) / 2) ∧
    padBR 223 225 (fun _ _ _ _ => 7) 0 0 222 224 = 7 ∧
    padBR 223 225 (fun _ _ _ _ => 7) 0 0 223 224 = 0 :=
  ⟨padding_transparency.1 false 223 225 (by decide) (by decide),
   padding_transparency.2.1 true 223 225 (by decide) (by decide),
   padding_transparency.2.2.1 223 225 (fun _ _ _ _ => 7) 0 0 222 224
     (by decide) (by decide),
   padding_transparency.2.2.2 223 225 (fun _ _ _ _ => 7) 0 0 223 224
     (Or.inl (by decide))⟩

/-- C9 (counterexample). The claim "every configuration error
(unsupported patch size, …) is raised at model construction time" is
false on the code: `DaViT` construction with the unsupported
`patch_size=3` SUCCEEDS — `PatchEmbed.__init__` (davit.py:77-104) has
no branch for it and simply never assigns `self.proj` — and the error
(`AttributeError`) only surfaces at the first forward call. -/
theorem failfast_cex :
    (davitInit [1, 1, 3, 1] [96, 192, 384, 768] [3, 6, 12, 24] 3 false).isOk = true ∧
    (davitPatchEmbedInit 3 false).proj = none ∧
    davitPatchEmbedForwardSize (davitPatchEmbedInit 3 false) 224 224
      = .error "AttributeError: proj" :=
  ⟨rfl, rfl, rfl⟩

/-- Completing the stage scan from position `s` over a nonempty
remainder forces `embed_dims` to cover every scanned stage index. -/
theorem davitStageScan_le (embedDims numHeads : List Nat) :
    ∀ (l : List Nat) (s : Nat), l ≠ [] →
      davitStageScan embedDims numHeads l s = .ok () →
      s + l.length ≤ embedDims.length := by
  intro l
  induction l with
  | nil => intro s hne _; exact absurd rfl hne
  | cons d rest ih =>
    intro s _ h
    unfold davitStageScan at h
    split_ifs at h with h1 h2
    cases rest with
    | nil =>
      simp only [List.length_cons, List.length_nil]
      omega
    | cons d2 rest2 =>
      have := ih (s + 1) (by simp) h
      simp only [List.length_cons] at this ⊢
      omega

/-- C9 (amended). The configuration errors that the constructors check
with explicit asserts fail fast: a stage/window-spec length mismatch
and an out-of-range query-pool count raise `HieraDet`'s asserts, and a
head-count/architecture length mismatch raises `DaViT`'s; conversely a
successful construction implies every one of the modelled
construction-time checks passed (the asserts, plus the non-assert
`IndexError` paths: a nonempty window spec and at least one block for
`HieraDet`; an `embed_dims` entry for every stage of `DaViT`), and in
the `Except` model nothing partially constructed ever escapes.  Two
degenerate configurations that pass the asserts still fail — at
construction time, but via `IndexError`, not an assert: empty
`stages`/`window_spec` hits `self.window_spec[0]`
(hieradet_sam2.py:329), and trailing zero-depth stages beyond
`embed_dims` hit `self.embed_dims[stage_id]` (davit.py:443).  An
unsupported patch size, by contrast, is NOT validated at construction:
the `PatchEmbed` is built without a projection layer and the error is
raised at the first forward call. -/
theorem failfast_amended :
    (∀ (ed nh qp : Nat) (qs : Nat × Nat) (stages : List Nat) (dm hm : ℚ)
        (wspec : List Nat) (ga : Option (List Int)),
        (stages.length ≠ wspec.length →
          hieraDetInit ed nh qp qs stages dm hm wspec ga
            = .error "AssertionError: len(stages) == len(window_spec)") ∧
        (stages.length = wspec.length → stages.length - 1 < qp →
          hieraDetInit ed nh qp qs stages dm hm wspec ga
            = .error "AssertionError: q_pool") ∧
        ((hieraDetInit ed nh qp qs stages dm hm wspec ga).isOk = true →
          stages.length = wspec.length ∧ qp ≤ stages.length - 1 ∧
          wspec ≠ [] ∧ stages.sum ≠ 0 ∧
          hieraBlocksCheck ⟨ed, nh, qp, qs, stages, dm, hm, wspec, ga⟩
            = .ok ())) ∧
    (∀ (ed nh : Nat) (qs : Nat × Nat) (dm hm : ℚ) (ga : Option (List Int)),
        hieraDetInit ed nh 0 qs [] dm hm [] ga
          = .error "IndexError: self.window_spec[0]") ∧
    (∀ (depths embedDims numHeads : List Nat) (ps : Nat) (ov : Bool),
        (embedDims.length ≠ numHeads.length →
          davitInit depths embedDims numHeads ps ov = .error "AssertionError") ∧
        (embedDims.length = numHeads.length →
          (davitArchFlat depths).isEmpty = true →
          davitInit depths embedDims numHeads ps ov
            = .error "IndexError: list index out of range") ∧
        (embedDims.length = numHeads.length →
          ¬ (davitArchFlat depths).isEmpty = true →
          embedDims.length ≠ (davitArchFlat depths).foldl max 0 + 1 →
          davitInit depths embedDims numHeads ps ov = .error "AssertionError") ∧
        ((davitInit depths embedDims numHeads ps ov).isOk = true →
          embedDims.length = numHeads.length ∧
          ¬ (davitArchFlat depths).isEmpty = true ∧
          embedDims.length = (davitArchFlat depths).foldl max 0 + 1 ∧
          davitStageScan embedDims numHeads depths 0 = .ok () ∧
          depths.length ≤ embedDims.length)) ∧
    (∀ (ps : Nat) (ov : Bool),
        davitInit [1, 1, 0] [96, 192] [3, 6] ps ov
          = .error "IndexError: self.embed_dims[stage_id]") ∧
    (∀ (ps : Nat) (ov : Bool) (H W : Nat), ps ≠ 4 → ps ≠ 2 →
        davitPatchEmbedForwardSize (davitPatchEmbedInit ps ov) H W
          = .error "AttributeError: proj") := by
  refine ⟨?_, ?_, ?_, ?_, ?_⟩
  · intro ed nh qp qs stages dm hm wspec ga
    refine ⟨fun h1 => ?_, fun h1 h2 => ?_, fun h => ?_⟩
    · unfold hieraDetInit
      rw [if_neg h1]
    · unfold hieraDetInit
      rw [if_pos h1, if_neg (by omega)]
    · unfold hieraDetInit at h
      by_cases h1 : stages.length = wspec.length
      · rw [if_pos h1] at h
        by_cases h2 : qp ≤ stages.length - 1
        · rw [if_pos h2] at h
          by_cases h3 : wspec.isEmpty = true
          · rw [if_pos h3] at h
            simp [Except.isOk, Except.toBool] at h
          · rw [if_neg h3] at h
            rcases h4 : hieraBlocksCheck ⟨ed, nh, qp, qs, stages, dm, hm,
                wspec, ga⟩ with e | u
            · rw [h4] at h
              simp [Except.isOk, Except.toBool] at h
            · cases u
              rw [h4] at h
              by_cases h5 : stages.sum = 0
              · rw [if_pos h5] at h
                simp [Except.isOk, Except.toBool] at h
              · refine ⟨h1, h2, ?_, h5, rfl⟩
                intro hnil
                rw [hnil] at h3
                simp at h3
        · rw [if_neg h2] at h
          simp [Except.isOk, Except.toBool] at h
      · rw [if_neg h1] at h
        simp [Except.isOk, Except.toBool] at h
  · intro ed nh qs dm hm ga
    rfl
  · intro depths embedDims numHeads ps ov
    refine ⟨fun h1 => ?_, fun h1 h2 => ?_, fun h1 h2 h3 => ?_, fun h => ?_⟩
    · unfold davitInit
      rw [if_neg h1]
    · unfold davitInit
      dsimp only
      rw [if_pos h1, if_pos h2]
    · unfold davitInit
      dsimp only
      rw [if_pos h1, if_neg h2, if_neg h3]
    · unfold davitInit at h
      dsimp only at h
      by_cases h1 : embedDims.length = numHeads.length
      · rw [if_pos h1] at h
        by_cases h2 : (davitArchFlat depths).isEmpty = true
        · rw [if_pos h2] at h
          simp [Except.isOk, Except.toBool] at h
        · rw [if_neg h2] at h
          by_cases h3 : embedDims.length = (davitArchFlat depths).foldl max 0 + 1
          · rw [if_pos h3] at h
            rcases h4 : davitStageScan embedDims numHeads depths 0 with e | u
            · rw [h4] at h
              simp [Except.isOk, Except.toBool] at h
            · cases u
              have hne : depths ≠ [] := by
                intro hd
                rw [hd] at h2
                simp [davitArchFlat] at h2
              refine ⟨h1, h2, h3, rfl, ?_⟩
              have := davitStageScan_le embedDims numHeads depths 0 hne h4
              omega
          · rw [if_neg h3] at h
            simp [Except.isOk, Except.toBool] at h
      · rw [if_neg h1] at h
        simp [Except.isOk, Except.toBool] at h
  · intro ps ov
    rfl
  · intro ps ov H W h4 h2
    show (match (davitPatchEmbedInit ps ov).proj with
      | none => (.error "AttributeError: proj" : Except String (Nat × Nat))
      | some cs => .ok (convOut cs (padUp ps H), convOut cs (padUp ps W))) = _
    have hp : (davitPatchEmbedInit ps ov).proj = none := by
      show davitPatchProj ps ov = none
      unfold davitPatchProj
      rw [if_neg h4, if_neg h2]
    rw [hp]

/-- Witness for C9's amended theorem: a one-stage `HieraDet`
configuration passes every modelled construction check; a
length-mismatched window spec on the stock arguments raises its assert;
the two assert-passing degenerate configurations raise `IndexError` at
construction; the `davit_tiny` arguments pass; and patch size 3 fails
only at forward time. -/
theorem failfast_amended_witness :
    ((hieraDetInit 96 1 0 (2, 2) [2] 2 2 [8] none).isOk = true ∧
      ([8] : List Nat) ≠ [] ∧ ([2] : List Nat).sum ≠ 0) ∧
    (([2, 3, 16, 3] : List Nat).length ≠ ([8, 4, 14] : List Nat).length ∧
      hieraDetInit 96 1 3 (2, 2) [2, 3, 16, 3] 2 2 [8, 4, 14] (some [12, 16, 20])
        = .error "AssertionError: len(stages) == len(window_spec)") ∧
    hieraDetInit 96 1 0 (2, 2) [] 2 2 [] none
      = .error "IndexError: self.window_spec[0]" ∧
    davitInit [1, 1, 0] [96, 192] [3, 6] 4 false
      = .error "IndexError: self.embed_dims[stage_id]" ∧
    ((davitInit [1, 1, 3, 1] [96, 192, 384, 768] [3, 6, 12, 24] 4 false).isOk = true ∧
      ([1, 1, 3, 1] : List Nat).length ≤ ([96, 192, 384, 768] : List Nat).length) ∧
    ((3 : Nat) ≠ 4 ∧ (3 : Nat) ≠ 2 ∧
      davitPatchEmbedForwardSize (davitPatchEmbedInit 3 false) 224 224
        = .error "AttributeError: proj") :=
  ⟨⟨by decide,
    ((failfast_amended.1 96 1 0 (2, 2) [2] 2 2 [8] none).2.2
        (by decide)).2.2.1,
    ((failfast_amended.1 96 1 0 (2, 2) [2] 2 2 [8] none).2.2
        (by decide)).2.2.2.1⟩,
   ⟨by decide,
    (failfast_amended.1 96 1 3 (2, 2) [2, 3, 16, 3] 2 2 [8, 4, 14]
        (some [12, 16, 20])).1 (by decide)⟩,
   failfast_amended.2.1 96 1 (2, 2) 2 2 none,
   failfast_amended.2.2.2.1 4 false,
   ⟨by decide,
    ((failfast_amended.2.2.1 [1, 1, 3, 1] [96, 192, 384, 768] [3, 6, 12, 24]
        4 false).2.2.2 (by decide)).2.2.2.2⟩,
   ⟨by decide, by decide,
    failfast_amended.2.2.2.2 3 false 224 224 (by decide) (by decide)⟩⟩

/-- Both attention layers of a dual block return their `size` argument
unchanged, so a whole stage of blocks preserves the spatial size. -/
theorem stageBlocksSize_id : ∀ (d : Nat) (s : Nat × Nat), stageBlocksSize d s = s := by
  intro d
  induction d with
  | zero => intro s; rfl
  | succ k ih => intro s; exact ih s

/-- C6. Pyramid monotonicity (davit.py:474-504): for
`depths = (1, 1, 3, 1)`, `embed_dims = (96, 192, 384, 768)` (the
`davit_tiny` configuration, produced by the constructor) and any
positive input size, the assembled pyramid has exactly 4 entries,
ordered by increasing depth, with channel counts exactly
`[96, 192, 384, 768]` — strictly increasing — and non-increasing
spatial resolution: each entry's height and width are no larger than
the previous entry's. -/
theorem pyramid_monotone (H W : Nat) (hH : 0 < H) (hW : 0 < W) :
    davitInit [1, 1, 3, 1] [96, 192, 384, 768] [3, 6, 12, 24] 4 false
      = .ok davitTinyShape ∧
    ∃ l, pyramidShapes davitTinyShape (H, W) = some l ∧
      l.length = 4 ∧
      l.map Prod.fst = [96, 192, 384, 768] ∧
      List.Chain' (· < ·) (l.map Prod.fst) ∧
      List.Chain' (fun a b : Nat × Nat => b.1 ≤ a.1 ∧ b.2 ≤ a.2) (l.map Prod.snd) := by
  have hH1 : 0 < (H + 3) / 4 := by omega
  have hW1 : 0 < (W + 3) / 4 := by omega
  have hH2 : 0 < ((H + 3) / 4 + 1) / 2 := by omega
  have hW2 : 0 < ((W + 3) / 4 + 1) / 2 := by omega
  have hH3 : 0 < (((H + 3) / 4 + 1) / 2 + 1) / 2 := by omega
  have hW3 : 0 < (((W + 3) / 4 + 1) / 2 + 1) / 2 := by omega
  refine ⟨rfl,
    [(96, ((H + 3) / 4, (W + 3) / 4)),
     (192, (((H + 3) / 4 + 1) / 2, ((W + 3) / 4 + 1) / 2)),
     (384, ((((H + 3) / 4 + 1) / 2 + 1) / 2, (((W + 3) / 4 + 1) / 2 + 1) / 2)),
     (768, (((((H + 3) / 4 + 1) / 2 + 1) / 2 + 1) / 2,
            ((((W + 3) / 4 + 1) / 2 + 1) / 2 + 1) / 2))],
    ?_, rfl, rfl,
    by simp only [List.map_cons, List.map_nil, List.chain'_cons,
         List.chain'_singleton, and_true]
       omega, ?_⟩
  · unfold pyramidShapes forwardNetworkSizes davitTinyShape
    dsimp only
    simp only [List.zip_cons_cons, List.zip_nil_right, fnGo]
    rw [pe4Size false H W hH hW]
    dsimp only
    rw [stageBlocksSize_id]
    simp only [List.length_nil, List.nil_append, fnGo]
    rw [pe2Size false _ _ hH1 hW1]
    dsimp only
    rw [stageBlocksSize_id]
    simp only [List.length_cons, List.length_nil, fnGo]
    rw [pe2Size false _ _ hH2 hW2]
    dsimp only
    rw [stageBlocksSize_id]
    simp only [fnGo]
    rw [pe2Size false _ _ hH3 hW3]
    dsimp only
    rw [stageBlocksSize_id]
    simp [fnGo]
  · simp only [List.map_cons, List.map_nil, List.chain'_cons,
      List.chain'_singleton, and_true]
    refine ⟨⟨?_, ?_⟩, ⟨?_, ?_⟩, ?_, ?_⟩ <;> omega

/-- Witness for C6 at a 224 × 224 input. -/
theorem pyramid_monotone_witness :
    (0 : Nat) < 224 ∧
    davitInit [1, 1, 3, 1] [96, 192, 384, 768] [3, 6, 12, 24] 4 false
      = .ok davitTinyShape ∧
    ∃ l, pyramidShapes davitTinyShape (224, 224) = some l ∧
      l.length = 4 ∧
      l.map Prod.fst = [96, 192, 384, 768] ∧
      List.Chain' (· < ·) (l.map Prod.fst) ∧
      List.Chain' (fun a b : Nat × Nat => b.1 ≤ a.1 ∧ b.2 ≤ a.2) (l.map Prod.snd) :=
  ⟨by decide, (pyramid_monotone 224 224 (by decide) (by decide)).1,
   (pyramid_monotone 224 224 (by decide) (by decide)).2⟩
